import Mathlib

/-!
# Verification of the ign-plugin loader (`src/loader/src/Loader.cc`)

This file is a shallow embedding of the plugin-loading runtime:

* `Info` mirrors `ignition::plugin::info_v1::Info`; the opaque callables
  (interface up-cast functions, `factory`, `deleter`) are represented by
  `Nat` tokens, and `std::shared_ptr<Info>` sharing is represented by an
  explicit heap `List (Nat × Info)` keyed by allocation ids.
* `World` bundles the process-wide state of `Loader.cc`
  (`kNativePlugins`, `kDynamicPlugins`, `kArchive`, `registrationOkay`)
  together with one `Loader::Implementation` instance (`LoaderSt`) and
  a model of the dl library: `libs` maps a path to the `Library` behind it
  (dlopen fails exactly on paths not in `libs`), `osRef` is the
  operating-system reference count per raw handle, and `libHeld` records
  the info handles retained by a loaded library's static registration
  objects (released through `IgnitionPluginHookCleanup_v1` on unload).
* C++ `std::map` / `std::unordered_map` are modelled as association lists
  in insertion order (`lookupA`, `insertNewA` for non-overwriting
  `insert`, `setA` for `operator[]` assignment, `eraseA` for `erase`);
  `std::set` / `std::unordered_set` as duplicate-free lists built with
  `insertSet`.
* Platform constants (`sizeof`/`alignof` of the two `Info` layouts) and
  the symbol demangler are parameters, collected in `Ctx`.
* shared-ptr lifetime: a strong reference to a library handle lives in
  `pluginToDlHandlePtrs` or in a local of the running operation; when the
  last one disappears, `dlclose` runs (`dropShare`), and when the OS
  count reaches zero the library is unloaded and its static destructors
  invoke the cleanup hook (`unloadLibrary`).
-/

namespace IgnPlugin

/-! ## Association-list primitives (C++ map / set operations) -/

/-- First-match lookup, i.e. `map.find(k)`. -/
def lookupA {κ α : Type} [DecidableEq κ] : List (κ × α) → κ → Option α
  | [], _ => none
  | (k, v) :: rest, q => if k = q then some v else lookupA rest q

/-- `map.insert(make_pair(k, v))`: keeps the existing entry if the key is
already present. New entries go to the back (insertion order). -/
def insertNewA {κ α : Type} [DecidableEq κ] (l : List (κ × α)) (k : κ) (v : α) :
    List (κ × α) :=
  match lookupA l k with
  | some _ => l
  | none => l ++ [(k, v)]

/-- `map[k] = v`: overwrite the first entry with this key, or append. -/
def setA {κ α : Type} [DecidableEq κ] : List (κ × α) → κ → α → List (κ × α)
  | [], k, v => [(k, v)]
  | (k', v') :: rest, k, v =>
      if k' = k then (k, v) :: rest else (k', v') :: setA rest k v

/-- `map.erase(k)`: drop the first entry with this key. -/
def eraseA {κ α : Type} [DecidableEq κ] : List (κ × α) → κ → List (κ × α)
  | [], _ => []
  | (k', v') :: rest, k => if k' = k then rest else (k', v') :: eraseA rest k

/-- `set.insert(x)` on a duplicate-free list. -/
def insertSet {α : Type} [DecidableEq α] (l : List α) (x : α) : List α :=
  if x ∈ l then l else l ++ [x]

/-! ## Descriptors -/

/-- `ignition::plugin::info_v1::Info`. Callables are opaque tokens. -/
structure Info where
  symbol : String
  name : String
  aliases : List String
  interfaces : List (String × Nat)
  demangledInterfaces : List String
  factory : Option Nat
  deleter : Option Nat
deriving DecidableEq, Repr

/-- `ignition::plugin::v1::Info`, the deprecated descriptor layout
(no `symbol` field). -/
structure V1Info where
  name : String
  aliases : List String
  interfaces : List (String × Nat)
  demangledInterfaces : List String
  factory : Option Nat
  deleter : Option Nat
deriving DecidableEq, Repr

/-- Platform parameters of the host: the symbol demangler and the host's
`sizeof`/`alignof` for `info_v1::Info` and for the deprecated `v1::Info`. -/
structure Ctx where
  dem : String → String
  infoSize : Nat
  infoAlign : Nat
  v1Size : Nat
  v1Align : Nat

/-- A registry (`ignition::plugin::Registry::pluginMap`, an `InfoMap`):
symbol → heap id of the shared descriptor. -/
abbrev Registry := List (String × Nat)

/-- State touched by `detail::IgnitionPluginHook_v1`: the target registry,
the descriptor heap, the allocation counter and the `registrationOkay`
flag. -/
structure HookSt where
  reg : Registry
  heap : List (Nat × Info)
  nextId : Nat
  registrationOkay : Bool
deriving DecidableEq, Repr

/-- Insert the demangled form of every interface key into a
`demangledInterfaces` set. -/
def demangleKeys (c : Ctx) (base : List String) (ifaces : List (String × Nat)) :
    List String :=
  ifaces.foldl (fun acc kv => insertSet acc (c.dem kv.fst)) base

/-- `detail::IgnitionPluginHook_v1` (Loader.cc:969).  Rejects the descriptor
on a `sizeof`/`alignof` mismatch; otherwise inserts it into the target
registry, or merges interfaces and aliases into the entry already stored
under the same `symbol`.  Returns the handle (heap id) passed back to the
cleanup hook, or `none` on rejection. -/
def IgnitionPluginHook_v1 (c : Ctx) (st : HookSt) (inputInfo : Info)
    (inputInfoSize inputInfoAlign : Nat) : HookSt × Option Nat :=
  if inputInfoSize ≠ c.infoSize ∨ inputInfoAlign ≠ c.infoAlign then
    ({ st with registrationOkay := false }, none)
  else
    match lookupA st.reg inputInfo.symbol with
    | none =>
        let id := st.nextId
        let newInfo : Info :=
          { inputInfo with
            name := c.dem inputInfo.symbol
            demangledInterfaces :=
              demangleKeys c inputInfo.demangledInterfaces inputInfo.interfaces }
        ({ st with
            reg := st.reg ++ [(inputInfo.symbol, id)]
            heap := st.heap ++ [(id, newInfo)]
            nextId := id + 1 }, some id)
    | some id =>
        match lookupA st.heap id with
        | none => (st, some id)  -- a lapsed InfoPtr in the registry cannot occur in the C++ source
        | some e =>
            let e' : Info :=
              { e with
                interfaces := inputInfo.interfaces.foldl
                  (fun m kv => insertNewA m kv.fst kv.snd) e.interfaces
                demangledInterfaces :=
                  demangleKeys c e.demangledInterfaces inputInfo.interfaces
                aliases := inputInfo.aliases.foldl insertSet e.aliases }
            ({ st with heap := setA st.heap id e' }, some id)

/-- `ignition::plugin::v1::Update` (Info.cc): migrate a deprecated
descriptor to the current shape. -/
def v1Update (c : Ctx) (oldInfo : V1Info) : Info :=
  { symbol := oldInfo.name
    name := c.dem oldInfo.name
    aliases := oldInfo.aliases
    interfaces := oldInfo.interfaces.foldl
      (fun m kv => insertNewA m kv.fst kv.snd) []
    demangledInterfaces := oldInfo.interfaces.foldl
      (fun s kv => insertSet s (c.dem kv.fst)) []
    factory := oldInfo.factory
    deleter := oldInfo.deleter }

/-! ## Libraries and process state -/

/-- One call that a library's static initializers make to the registration
hook: the descriptor plus the library-side `sizeof`/`alignof`. -/
structure RegCall where
  info : Info
  size : Nat
  align : Nat
deriving DecidableEq, Repr

/-- What the deprecated `IgnitionPluginHook` entry point of a library
reports: API version, `sizeof(v1::Info)`, `alignof(v1::Info)` and the
library's name → descriptor map (or a null pointer). -/
structure LegacyHook where
  version : Int
  size : Nat
  align : Nat
  allInfo : Option (List (String × V1Info))
deriving DecidableEq, Repr

/-- A shared library on disk: its raw dl handle, the registration calls its
static initializers perform, its optional deprecated entry point, and the
type-info symbols it exports (probed with `dlsym`). -/
structure Library where
  handle : Nat
  regCalls : List RegCall
  legacy : Option LegacyHook
  typeExports : List String
deriving DecidableEq, Repr

/-- `Loader::Implementation`: the per-loader tables. -/
structure LoaderSt where
  aliases : List (String × List String)
  pluginToDlHandlePtrs : List (String × Option Nat)
  plugins : List (String × Nat)
  dlHandlePtrMap : List Nat
  dlHandleToPluginMap : List (Option Nat × List String)
deriving DecidableEq, Repr

def emptyLoader : LoaderSt :=
  { aliases := [], pluginToDlHandlePtrs := [], plugins := [],
    dlHandlePtrMap := [], dlHandleToPluginMap := [] }

/-- `ignition::plugin::Archive` (weak references are the raw ids; their
aliveness is derived from the strong references in the world). -/
structure Archive where
  dlHandleToInfo : List (Nat × List Nat)
  infoToDlHandle : List (Nat × Nat)
deriving DecidableEq, Repr

/-- The process state: libraries, OS reference counts, the handles kept by
loaded libraries' static registration objects, the two global registries,
the `registrationOkay` flag, the archive, the descriptor heap and one
`Loader`. -/
structure World where
  libs : List (String × Library)
  osRef : List (Nat × Nat)
  libHeld : List (Nat × List Nat)
  nativeReg : Registry
  dynamicReg : Registry
  registrationOkay : Bool
  archive : Archive
  heap : List (Nat × Info)
  nextId : Nat
  loader : LoaderSt
deriving DecidableEq, Repr

def osRefGet (w : World) (h : Nat) : Nat := (lookupA w.osRef h).getD 0

/-- Whether this loader currently holds a strong share of the library
handle `h` in its tables (the weak pointer in `dlHandlePtrMap` locks). -/
def aliveShare (l : LoaderSt) (h : Nat) : Bool :=
  l.pluginToDlHandlePtrs.any fun e => decide (e.2 = some h)

/-- Whether a strong reference to heap id `id` exists anywhere: in a
registry, in the loader's `plugins` table, or in a loaded library's
static registration objects. -/
def aliveInfo (w : World) (id : Nat) : Bool :=
  (w.nativeReg.any fun e => decide (e.2 = id)) ||
  (w.dynamicReg.any fun e => decide (e.2 = id)) ||
  (w.loader.plugins.any fun e => decide (e.2 = id)) ||
  (w.libHeld.any fun e => decide (id ∈ e.2))

/-- `detail::IgnitionPluginHookCleanup_v1` (Loader.cc:1034) for one stored
descriptor handle: remove its archive entries. -/
def IgnitionPluginHookCleanup_v1 (a : Archive) (id : Nat) : Archive :=
  match lookupA a.infoToDlHandle id with
  | some h =>
      { dlHandleToInfo := eraseA a.dlHandleToInfo h
        infoToDlHandle := eraseA a.infoToDlHandle id }
  | none => a

/-- The OS unloads a library whose reference count reached zero: its static
destructors pass every retained handle to the cleanup hook. -/
def unloadLibrary (w : World) (h : Nat) : World :=
  let ids := (lookupA w.libHeld h).getD []
  { w with archive := ids.foldl IgnitionPluginHookCleanup_v1 w.archive
           libHeld := eraseA w.libHeld h }

/-- `dlclose(h)`: decrement the count; at zero the library is unloaded. -/
def dlcloseW (w : World) (h : Nat) : World :=
  let r := osRefGet w h
  let w' := { w with osRef := setA w.osRef h (r - 1) }
  if r - 1 = 0 then unloadLibrary w' h else w'

/-- A strong reference to the library-handle share `old` disappears (table
entry overwritten or erased, or a local going out of scope).  If no table
entry and no still-live local (`transient`) keeps the share alive, the
shared-ptr deleter runs `dlclose`.  A null handle (`none`) is a no-op. -/
def dropShare (w : World) (old : Option Nat) (transient : Option Nat) : World :=
  match old with
  | none => w
  | some h =>
      if aliveShare w.loader h ∨ transient = some h then w
      else dlcloseW w h

/-- One static initializer of the library at handle `h` runs: it calls the
registration hook (in dynamic-registration mode, i.e. on
`kDynamicPlugins`) and retains the returned handle. -/
def initStep (c : Ctx) (h : Nat) (w : World) (rc : RegCall) : World :=
  let st : HookSt :=
    { reg := w.dynamicReg, heap := w.heap, nextId := w.nextId,
      registrationOkay := w.registrationOkay }
  let p := IgnitionPluginHook_v1 c st rc.info rc.size rc.align
  let w' := { w with dynamicReg := p.1.reg, heap := p.1.heap,
                     nextId := p.1.nextId,
                     registrationOkay := p.1.registrationOkay }
  match p.2 with
  | some id =>
      let held := ((lookupA w'.libHeld h).getD []) ++ [id]
      { w' with libHeld := setA w'.libHeld h held }
  | none => w'

/-- The static initializers of a freshly loaded library run in order. -/
def runInits (c : Ctx) (w : World) (lib : Library) : World :=
  lib.regCalls.foldl (initStep c lib.handle) w

/-- A successful `dlopen` of `lib`: the OS count is incremented and, when
the library was not currently loaded, its static initializers run. -/
def dlopenW (c : Ctx) (w : World) (lib : Library) : World :=
  let wasLoaded := 0 < osRefGet w lib.handle
  let w1 :=
    { w with osRef := setA w.osRef lib.handle (osRefGet w lib.handle + 1) }
  if wasLoaded then w1 else runInits c w1 lib

/-- `Loader::Implementation::CreateDlHandle` (Loader.cc:604) together with
the dlopen model: `dlopen` fails exactly on paths outside `libs`.
A duplicate open of a library this loader already holds a live share of
is balanced by an immediate `dlclose`. -/
def CreateDlHandle (c : Ctx) (w : World) (fullPath : String) :
    World × Option Nat :=
  match lookupA w.libs fullPath with
  | none => (w, none)
  | some lib =>
      let h := lib.handle
      let w := dlopenW c w lib
      if h ∈ w.loader.dlHandlePtrMap then
        if aliveShare w.loader h then (dlcloseW w h, some h)
        else (w, some h)
      else
        ({ w with loader :=
            { w.loader with dlHandlePtrMap := w.loader.dlHandlePtrMap ++ [h] } },
         some h)

def INFO_API_VERSION : Int := 1

/-- One entry of the deprecated hook's info map is migrated: a fresh
descriptor is allocated via `v1::Update`. -/
def oldHookStep (c : Ctx) (acc : World × List Nat) (entry : String × V1Info) :
    World × List Nat :=
  let id := acc.1.nextId
  ({ acc.1 with
      heap := acc.1.heap ++ [(id, v1Update c entry.snd)]
      nextId := id + 1 },
   acc.2 ++ [id])

/-- `Loader::Implementation::OldIgnitionHook` (Loader.cc:693): call the
deprecated entry point; reject an impossible version or a
`sizeof`/`alignof` mismatch or a null info map; otherwise allocate a
migrated descriptor per entry. -/
def OldIgnitionHook (c : Ctx) (w : World) (legacy : LegacyHook) :
    World × List Nat :=
  if legacy.version ≠ INFO_API_VERSION then (w, [])
  else if legacy.size ≠ c.v1Size ∨ legacy.align ≠ c.v1Align then (w, [])
  else
    match legacy.allInfo with
    | none => (w, [])
    | some entries => entries.foldl (oldHookStep c) (w, [])

/-- `ArchivePluginInfo` (Loader.cc:109): record the descriptors a library
produced (no entry at all for an empty list). -/
def ArchivePluginInfo (a : Archive) (ids : List Nat) (h : Nat) : Archive :=
  if ids = [] then a
  else
    { dlHandleToInfo :=
        setA a.dlHandleToInfo h (((lookupA a.dlHandleToInfo h).getD []) ++ ids)
      infoToDlHandle := ids.foldl (fun m id => setA m id h) a.infoToDlHandle }

/-- `Loader::Implementation::ReceivePlugins` (Loader.cc:792): reuse the
archive entry if one exists (skipping lapsed weak references); otherwise
call the deprecated hook when its symbol is exported, append everything
deposited in the dynamic registry, and archive the result. -/
def ReceivePlugins (c : Ctx) (w : World) (lib : Library) : World × List Nat :=
  match lookupA w.archive.dlHandleToInfo lib.handle with
  | some weakIds => (w, weakIds.filter fun id => aliveInfo w id)
  | none =>
      let p :=
        match lib.legacy with
        | some leg => OldIgnitionHook c w leg
        | none => (w, [])
      let registryIds := p.1.dynamicReg.map Prod.snd
      let loaded := p.2 ++ registryIds
      ({ p.1 with archive := ArchivePluginInfo p.1.archive loaded lib.handle },
       loaded)

/-- `aliases[alias].insert(pname)` for one alias. -/
def addAliasFor (pname : String) (m : List (String × List String))
    (a : String) : List (String × List String) :=
  setA m a (insertSet ((lookupA m a).getD []) pname)

/-- One iteration of the `StorePlugins` loop body (Loader.cc:852). -/
def storeStep (dlHandle : Option Nat) (acc : World × List String)
    (id : Nat) : World × List String :=
  match lookupA acc.1.heap id with
  | none => acc  -- a dangling ConstInfoPtr cannot occur in the C++ source
  | some plugin =>
      let w := acc.1
      let als := plugin.aliases.foldl (addAliasFor plugin.name) w.loader.aliases
      let plugins' := insertNewA w.loader.plugins plugin.name id
      let newPlugins := insertSet acc.2 plugin.name
      let old := lookupA w.loader.pluginToDlHandlePtrs plugin.name
      let ptdh := setA w.loader.pluginToDlHandlePtrs plugin.name dlHandle
      let w := { w with loader :=
        { w.loader with aliases := als, plugins := plugins',
                        pluginToDlHandlePtrs := ptdh } }
      let w :=
        match old with
        | some oldH => if oldH = dlHandle then w else dropShare w oldH dlHandle
        | none => w
      (w, newPlugins)

/-- `Loader::Implementation::StorePlugins` (Loader.cc:846): for each
received descriptor, record its aliases, insert it into `plugins`
(without overwriting), collect its name, and store the library-handle
share under its name (overwriting any previous share, whose release may
close its library). -/
def StorePlugins (w : World) (loadedPlugins : List Nat)
    (dlHandle : Option Nat) : World × List String :=
  let p := loadedPlugins.foldl (storeStep dlHandle) (w, [])
  let dhtp := setA p.1.loader.dlHandleToPluginMap dlHandle p.2
  ({ p.1 with loader := { p.1.loader with dlHandleToPluginMap := dhtp } }, p.2)

/-- One native-registry entry is probed: `dlsym` on the Itanium type-info
symbol of the native plugin's class. -/
def checkNativeStep (w : World) (lib : Library) (plugins : List String)
    (entry : String × Nat) : List String :=
  match lookupA w.heap entry.snd with
  | none => plugins
  | some info =>
      if ("_ZTI" ++ info.symbol) ∈ lib.typeExports then
        insertSet plugins info.name
      else plugins

/-- `CheckForNativePluginSymbols` (Loader.cc:317): probe the library for
the Itanium type-info symbol of every native plugin. -/
def CheckForNativePluginSymbols (w : World) (lib : Library) : List String :=
  w.nativeReg.foldl (checkNativeStep w lib) []

/-- `Loader::LoadLib` (Loader.cc:356).  The model is single-threaded, so
the `loadingMutex` is implicit; `registeringDynamicPlugins` is true
exactly while `CreateDlHandle` runs, which is why `runInits` deposits
into the dynamic registry. -/
def LoadLib (c : Ctx) (w : World) (pathToLibrary : String) :
    World × List String :=
  let w := { w with registrationOkay := true }
  let p := CreateDlHandle c w pathToLibrary
  match p.2, lookupA p.1.libs pathToLibrary with
  | some _, some lib =>
      let w := p.1
      let q := ReceivePlugins c w lib
      let r := StorePlugins q.1 q.2 (some lib.handle)
      let w := { r.1 with dynamicReg := [] }
      let loadedPlugins :=
        if r.2 = [] then CheckForNativePluginSymbols w lib else r.2
      -- the local shared_ptr from CreateDlHandle goes out of scope here
      (dropShare w (some lib.handle) none, loadedPlugins)
  | _, _ => (p.1, [])

/-- Diagnostic channel of `LookupPlugin` (std::cerr in the source). -/
inductive LookupDiag
  | ok
  | ambiguous (candidates : List String)
  | notFound
deriving DecidableEq, Repr

/-- `Loader::Implementation::LookupPlugin` (Loader.cc:874) together with
its diagnostic. -/
def LookupPluginD (l : LoaderSt) (nameOrAlias : String) : String × LookupDiag :=
  match lookupA l.plugins nameOrAlias with
  | some _ => (nameOrAlias, LookupDiag.ok)
  | none =>
      match lookupA l.aliases nameOrAlias with
      | some s =>
          match s with
          | [] => ("", LookupDiag.notFound)
          | [n] => (n, LookupDiag.ok)
          | n1 :: n2 :: rest => ("", LookupDiag.ambiguous (n1 :: n2 :: rest))
      | none => ("", LookupDiag.notFound)

def LookupPlugin (l : LoaderSt) (nameOrAlias : String) : String :=
  (LookupPluginD l nameOrAlias).1

/-- `Loader::Instantiate` (Loader.cc:498).  The `PluginPtr` class itself is
not among the sources under `src/`.  Modelled from the spec: the plugin
handle packages (descriptor, library handle); `instantiate` resolves the
name and returns the empty handle (`none`) when resolution fails,
otherwise a handle built from the resolved descriptor and the stored
library-handle share. -/
def Instantiate (l : LoaderSt) (pluginNameOrAlias : String) :
    Option (Nat × Option Nat) :=
  let resolvedName := LookupPlugin l pluginNameOrAlias
  if resolvedName = "" then none
  else
    match lookupA l.plugins resolvedName with
    | some id =>
        some (id, (lookupA l.pluginToDlHandlePtrs resolvedName).getD none)
    | none => none

/-- `this->aliases.at(alias).erase(name)` for one alias (the map key is
left in place; only the name is removed from its set). -/
def eraseAliasEntry (name : String) (m : List (String × List String))
    (a : String) : List (String × List String) :=
  match lookupA m a with
  | some s => setA m a (s.erase name)
  | none => m  -- aliases.at(alias) would throw; unreachable in the C++ source

/-- First loop body of `Implementation::ForgetLibrary` (Loader.cc:930):
erase every alias entry recorded in the stored descriptor of one
forgotten plugin.  `l` and `heap` are the (unmodified) plugin table and
heap of the loader performing the forget. -/
def forgetAliasStep (l : LoaderSt) (heap : List (Nat × Info))
    (m : List (String × List String)) (forget : String) :
    List (String × List String) :=
  match lookupA l.plugins forget with
  | none => m  -- plugins.at(forget) would throw; unreachable in the C++ source
  | some id =>
      match lookupA heap id with
      | none => m
      | some info => info.aliases.foldl (eraseAliasEntry info.name) m

/-- Second loop body of `Implementation::ForgetLibrary` (Loader.cc:938):
erase the plugin from `plugins` FIRST, then drop its library-handle
share. -/
def forgetEraseStep (w : World) (forget : String) : World :=
  let plugins' := eraseA w.loader.plugins forget
  let old := lookupA w.loader.pluginToDlHandlePtrs forget
  let ptdh := eraseA w.loader.pluginToDlHandlePtrs forget
  let w := { w with loader :=
    { w.loader with plugins := plugins', pluginToDlHandlePtrs := ptdh } }
  match old with
  | some oldH => dropShare w oldH none
  | none => w

/-- `Loader::Implementation::ForgetLibrary` (Loader.cc:912). -/
def ImplForgetLibrary (w : World) (dlHandle : Option Nat) : World × Bool :=
  match dlHandle with
  | none => (w, false)
  | some h =>
      match lookupA w.loader.dlHandleToPluginMap (some h) with
      | none => (w, false)
      | some forgottenPlugins =>
          let als := forgottenPlugins.foldl
            (forgetAliasStep w.loader w.heap) w.loader.aliases
          let w := { w with loader := { w.loader with aliases := als } }
          let w := forgottenPlugins.foldl forgetEraseStep w
          let dhtp := eraseA w.loader.dlHandleToPluginMap (some h)
          ({ w with loader := { w.loader with dlHandleToPluginMap := dhtp } },
           true)

/-- `Loader::ForgetLibrary` (Loader.cc:514): probe with
`dlopen(RTLD_NOLOAD)`, which returns a handle exactly when the library is
currently loaded and whose extra reference is immediately balanced by
`dlclose`. -/
def ForgetLibrary (w : World) (pathToLibrary : String) : World × Bool :=
  match lookupA w.libs pathToLibrary with
  | none => (w, false)
  | some lib =>
      if 0 < osRefGet w lib.handle then ImplForgetLibrary w (some lib.handle)
      else (w, false)

/-- `Loader::ForgetLibraryOfPlugin` (Loader.cc:541). -/
def ForgetLibraryOfPlugin (w : World) (pluginNameOrAlias : String) :
    World × Bool :=
  let resolvedName := LookupPlugin w.loader pluginNameOrAlias
  match lookupA w.loader.pluginToDlHandlePtrs resolvedName with
  | none => (w, false)
  | some h => ImplForgetLibrary w h

/-- `Loader::Implementation::Implementation` (Loader.cc:598): a fresh
loader stores every native plugin under a null library handle. -/
def ConstructLoader (w : World) : World :=
  (StorePlugins { w with loader := emptyLoader }
    (w.nativeReg.map Prod.snd) none).1

/-- The registration hook as called by a statically linked library during
program initialization (`registeringDynamicPlugins` false, so the target
is the native registry). -/
def RegisterNative (c : Ctx) (w : World) (rc : RegCall) : World :=
  let st : HookSt :=
    { reg := w.nativeReg, heap := w.heap, nextId := w.nextId,
      registrationOkay := w.registrationOkay }
  let p := IgnitionPluginHook_v1 c st rc.info rc.size rc.align
  { w with nativeReg := p.1.reg, heap := p.1.heap, nextId := p.1.nextId,
           registrationOkay := p.1.registrationOkay }

/-- Written from the words of the spec, section 4.3 (name resolution), for
comparison with `LookupPluginD`: return the name if it is a plugin key;
else an alias entry with exactly one canonical name resolves to it; more
than one fails as ambiguous, naming the colliding plugins; anything else
fails as not found. -/
def LookupSpec (l : LoaderSt) (nameOrAlias : String) : String × LookupDiag :=
  if (lookupA l.plugins nameOrAlias).isSome then (nameOrAlias, LookupDiag.ok)
  else
    match lookupA l.aliases nameOrAlias with
    | some entries =>
        if entries.length = 1 then (entries.headI, LookupDiag.ok)
        else if 1 < entries.length then ("", LookupDiag.ambiguous entries)
        else ("", LookupDiag.notFound)
    | none => ("", LookupDiag.notFound)

/-! ## Concrete instances used by witnesses and counterexamples -/

/-- A concrete platform: the demangler is the identity, the host compiled
`info_v1::Info` to size 8 / alignment 4 and `v1::Info` to size 6 /
alignment 2. -/
def exCtx : Ctx :=
  { dem := id, infoSize := 8, infoAlign := 4, v1Size := 6, v1Align := 2 }

/-- A descriptor as a plugin library's registration macros build it. -/
def exInfo (sym : String) (als : List String) : Info :=
  { symbol := sym, name := "", aliases := als,
    interfaces := [("I" ++ sym, 7)], demangledInterfaces := [],
    factory := some 1, deleter := some 2 }

/-- A process that has just started: nothing registered, nothing loaded. -/
def initialWorld (ls : List (String × Library)) : World :=
  { libs := ls, osRef := [], libHeld := [], nativeReg := [], dynamicReg := [],
    registrationOkay := true,
    archive := { dlHandleToInfo := [], infoToDlHandle := [] },
    heap := [], nextId := 0, loader := emptyLoader }

/- Two libraries that both provide a plugin whose canonical name is "P";
the second also declares the alias "b1" for it. -/

def exLibA : Library :=
  { handle := 1, regCalls := [{ info := exInfo "P" [], size := 8, align := 4 }],
    legacy := none, typeExports := [] }

def exLibB : Library :=
  { handle := 2,
    regCalls := [{ info := exInfo "P" ["b1"], size := 8, align := 4 }],
    legacy := none, typeExports := [] }

def exW0 : World := ConstructLoader (initialWorld [("a", exLibA), ("b", exLibB)])
def exW1 : World × List String := LoadLib exCtx exW0 "a"
def exW2 : World × List String := LoadLib exCtx exW1.1 "b"
def exW3 : World × Bool := ForgetLibraryOfPlugin exW2.1 "P"

/- A library that carries both the deprecated entry point (producing a
plugin "OldP") and a new-style registration (producing "NewP"). -/

def exV1 : V1Info :=
  { name := "OldP", aliases := [], interfaces := [],
    demangledInterfaces := [], factory := some 1, deleter := some 2 }

def exLegacy : LegacyHook :=
  { version := 1, size := 6, align := 2, allInfo := some [("OldP", exV1)] }

def exLibLeg : Library :=
  { handle := 5,
    regCalls := [{ info := exInfo "NewP" [], size := 8, align := 4 }],
    legacy := some exLegacy, typeExports := [] }

def exWLeg : World × List String :=
  LoadLib exCtx (ConstructLoader (initialWorld [("p", exLibLeg)])) "p"

/-- The state in the middle of loading `exLibLeg`, right after its static
initializers ran (so the dynamic registry holds the new-style
descriptor) and before `ReceivePlugins`. -/
def exWRec : World :=
  runInits exCtx (ConstructLoader (initialWorld [("p", exLibLeg)])) exLibLeg

/- A native plugin "P"; a dynamic library at "q" registering a plugin with
the same symbol; a library at "r" that exports the native type-info
symbol but registers nothing. -/

def exLibQ : Library :=
  { handle := 1, regCalls := [{ info := exInfo "P" [], size := 8, align := 4 }],
    legacy := none, typeExports := [] }

def exLibR : Library :=
  { handle := 2, regCalls := [], legacy := none, typeExports := ["_ZTIP"] }

def exN0 : World :=
  RegisterNative exCtx (initialWorld [("q", exLibQ), ("r", exLibR)])
    { info := exInfo "P" [], size := 8, align := 4 }
def exN1 : World := ConstructLoader exN0
def exN2 : World × List String := LoadLib exCtx exN1 "q"
def exN3 : World × Bool := ForgetLibraryOfPlugin exN2.1 "P"
def exN4 : World × List String := LoadLib exCtx exN3.1 "r"

/- A library with two plugins sharing the alias "ax", for double-load and
lookup examples. -/

def exLibC : Library :=
  { handle := 9,
    regCalls := [{ info := exInfo "X" ["ax"], size := 8, align := 4 },
                 { info := exInfo "Y" ["ax"], size := 8, align := 4 }],
    legacy := none, typeExports := [] }

def exCW0 : World := ConstructLoader (initialWorld [("c", exLibC)])
def exCW1 : World × List String := LoadLib exCtx exCW0 "c"
def exCW2 : World × List String := LoadLib exCtx exCW1.1 "c"

/- A registry state and an incoming descriptor exercising the merge path
of the registration hook. -/

def exE3 : Info :=
  { symbol := "S", name := "S", aliases := ["a0"], interfaces := [("I0", 1)],
    demangledInterfaces := ["I0"], factory := some 1, deleter := some 2 }

def exIn3 : Info :=
  { symbol := "S", name := "", aliases := ["a1"], interfaces := [("I1", 2)],
    demangledInterfaces := [], factory := some 1, deleter := some 2 }

def exSt3 : HookSt :=
  { reg := [("S", 0)], heap := [(0, exE3)], nextId := 1,
    registrationOkay := true }

/-- The descriptor stored for plugin "P" after `exW1` loaded `exLibA`. -/
def exPInfo : Info :=
  { symbol := "P", name := "P", aliases := [], interfaces := [("IP", 7)],
    demangledInterfaces := ["IP"], factory := some 1, deleter := some 2 }

/-- Every descriptor on the heap has a non-empty canonical name (the
demangled form of its non-empty symbol). -/
def NN (h : List (Nat × Info)) : Prop :=
  ∀ id info, lookupA h id = some info → info.name ≠ ""

/-- `h2` extends `h1`: every descriptor of `h1` is still there, with the
same canonical name (merging interfaces or aliases never renames). -/
def HeapExt (h1 h2 : List (Nat × Info)) : Prop :=
  ∀ id info, lookupA h1 id = some info →
    ∃ info', lookupA h2 id = some info' ∧ info'.name = info.name

/-- Every descriptor deposited in the dynamic registry is resolvable on
the heap and retained by the static registration objects of the library
at handle `h` (its hook calls returned those handles). -/
def RegInv (w : World) (h : Nat) : Prop :=
  ∀ id ∈ w.dynamicReg.map Prod.snd,
    (lookupA w.heap id).isSome ∧ id ∈ ((lookupA w.libHeld h).getD [])

/-- Every library-handle share this loader stores is either the null
handle (a native plugin) or the share `dh` (the library being loaded).
Under this invariant `StorePlugins` never releases a foreign share. -/
def PVals (l : LoaderSt) (dh : Option Nat) : Prop :=
  ∀ e ∈ l.pluginToDlHandlePtrs, e.2 = (none : Option Nat) ∨ e.2 = dh

/-- A platform whose demangler never returns the empty string. -/
def exCtxD : Ctx :=
  { dem := fun _ => "N", infoSize := 8, infoAlign := 4, v1Size := 6,
    v1Align := 2 }

/-- A fresh loader over a world with the single library `exLibA`. -/
def exDW : World := ConstructLoader (initialWorld [("q", exLibA)])

/-! ## Lemmas about the map and set primitives -/

section MapLemmas

variable {κ α : Type} [DecidableEq κ]

@[simp] theorem lookupA_nil (q : κ) : lookupA ([] : List (κ × α)) q = none := rfl

@[simp] theorem lookupA_cons (k : κ) (v : α) (l : List (κ × α)) (q : κ) :
    lookupA ((k, v) :: l) q = if k = q then some v else lookupA l q := rfl

theorem lookupA_append_some {l₁ : List (κ × α)} {q : κ} {v : α}
    (l₂ : List (κ × α)) (h : lookupA l₁ q = some v) :
    lookupA (l₁ ++ l₂) q = some v := by
  induction l₁ with
  | nil => simp at h
  | cons e rest ih =>
      obtain ⟨k, v'⟩ := e
      by_cases hk : k = q <;> simp_all

theorem lookupA_append_none {l₁ : List (κ × α)} {q : κ}
    (l₂ : List (κ × α)) (h : lookupA l₁ q = none) :
    lookupA (l₁ ++ l₂) q = lookupA l₂ q := by
  induction l₁ with
  | nil => simp
  | cons e rest ih =>
      obtain ⟨k, v'⟩ := e
      by_cases hk : k = q <;> simp_all

@[simp] theorem lookupA_setA_self (l : List (κ × α)) (k : κ) (v : α) :
    lookupA (setA l k v) k = some v := by
  induction l with
  | nil => simp [setA]
  | cons e rest ih =>
      obtain ⟨k', v'⟩ := e
      by_cases hk : k' = k <;> simp_all [setA]

theorem lookupA_setA_ne (l : List (κ × α)) {k q : κ} (v : α) (h : k ≠ q) :
    lookupA (setA l k v) q = lookupA l q := by
  induction l with
  | nil => simp [setA, h]
  | cons e rest ih =>
      obtain ⟨k', v'⟩ := e
      by_cases hk : k' = k
      · subst hk; simp [setA, h]
      · simp [setA, hk, ih]

theorem setA_of_lookup_eq {l : List (κ × α)} {k : κ} {v : α}
    (h : lookupA l k = some v) : setA l k v = l := by
  induction l with
  | nil => simp at h
  | cons e rest ih =>
      obtain ⟨k', v'⟩ := e
      by_cases hk : k' = k
      · subst hk
        simp at h
        simp [setA, h]
      · simp [hk] at h
        simp [setA, hk, ih h]

theorem setA_setA_self (l : List (κ × α)) (k : κ) (a b : α) :
    setA (setA l k a) k b = setA l k b := by
  induction l with
  | nil => simp [setA]
  | cons e rest ih =>
      obtain ⟨k', v'⟩ := e
      by_cases hk : k' = k <;> simp_all [setA]

theorem insertNewA_of_some {l : List (κ × α)} {k : κ} {v : α}
    (h : lookupA l k = some v) (v' : α) : insertNewA l k v' = l := by
  simp [insertNewA, h]

theorem lookupA_insertNewA_some {l : List (κ × α)} {q : κ} {v : α}
    (k : κ) (v' : α) (h : lookupA l q = some v) :
    lookupA (insertNewA l k v') q = some v := by
  unfold insertNewA
  cases hk : lookupA l k with
  | some u => exact h
  | none => exact lookupA_append_some _ h

theorem lookupA_insertNewA_self_isSome (l : List (κ × α)) (k : κ) (v : α) :
    (lookupA (insertNewA l k v) k).isSome := by
  unfold insertNewA
  cases hk : lookupA l k with
  | some u => simp [hk]
  | none => simp [lookupA_append_none _ hk]

theorem eraseA_of_none {l : List (κ × α)} {k : κ}
    (h : lookupA l k = none) : eraseA l k = l := by
  induction l with
  | nil => rfl
  | cons e rest ih =>
      obtain ⟨k', v'⟩ := e
      by_cases hk : k' = k
      · simp [hk] at h
      · simp [hk] at h
        simp [eraseA, hk, ih h]

theorem lookupA_eraseA_ne (l : List (κ × α)) {k q : κ} (h : k ≠ q) :
    lookupA (eraseA l k) q = lookupA l q := by
  induction l with
  | nil => rfl
  | cons e rest ih =>
      obtain ⟨k', v'⟩ := e
      by_cases hk : k' = k
      · subst hk; simp [eraseA, h]
      · simp [eraseA, hk, ih]

theorem lookupA_eq_none_of_not_mem_keys {l : List (κ × α)} {k : κ}
    (h : k ∉ l.map Prod.fst) : lookupA l k = none := by
  induction l with
  | nil => rfl
  | cons e rest ih =>
      obtain ⟨k', v'⟩ := e
      rw [List.map_cons] at h
      have hne : k' ≠ k := by
        intro hh
        exact h (by rw [hh]; exact List.mem_cons_self _ _)
      have h2 : k ∉ rest.map Prod.fst := fun hm => h (List.mem_cons_of_mem _ hm)
      simp [hne, ih h2]

theorem lookupA_eraseA_self {l : List (κ × α)} {k : κ}
    (hnd : (l.map Prod.fst).Nodup) : lookupA (eraseA l k) k = none := by
  induction l with
  | nil => rfl
  | cons e rest ih =>
      obtain ⟨k', v'⟩ := e
      rw [List.map_cons, List.nodup_cons] at hnd
      by_cases hk : k' = k
      · subst hk
        simpa [eraseA] using lookupA_eq_none_of_not_mem_keys hnd.1
      · simp [eraseA, hk, ih hnd.2]

theorem lookupA_eraseA_none {l : List (κ × α)} {k q : κ}
    (h : lookupA l q = none) : lookupA (eraseA l k) q = none := by
  by_cases hk : k = q
  · subst hk; rw [eraseA_of_none ?_] <;> exact h
  · rw [lookupA_eraseA_ne l hk]; exact h

theorem insertSet_of_mem {β : Type} [DecidableEq β] {l : List β} {x : β}
    (h : x ∈ l) : insertSet l x = l := by simp [insertSet, h]

theorem mem_insertSet_self {β : Type} [DecidableEq β] (l : List β) (x : β) :
    x ∈ insertSet l x := by
  unfold insertSet
  by_cases h : x ∈ l <;> simp [h]

theorem mem_insertSet_of_mem {β : Type} [DecidableEq β] {l : List β} {y : β}
    (x : β) (h : y ∈ l) : y ∈ insertSet l x := by
  unfold insertSet
  by_cases hx : x ∈ l <;> simp [hx, h]

theorem mem_insertSet_iff {β : Type} [DecidableEq β] {l : List β} {x y : β} :
    y ∈ insertSet l x ↔ y ∈ l ∨ y = x := by
  unfold insertSet
  by_cases hx : x ∈ l
  · simp [hx]
    intro hy; subst hy; exact hx
  · simp [hx]

end MapLemmas

/-! ## Fold lemmas for map-insert and set-insert loops -/

section FoldLemmas

variable {κ α : Type} [DecidableEq κ]

theorem lookupA_foldl_insertNewA_some {ops : List (κ × α)} {m : List (κ × α)}
    {q : κ} {v : α} (h : lookupA m q = some v) :
    lookupA (ops.foldl (fun m kv => insertNewA m kv.fst kv.snd) m) q = some v := by
  induction ops generalizing m with
  | nil => exact h
  | cons kv rest ih => exact ih (lookupA_insertNewA_some kv.fst kv.snd h)

theorem lookupA_foldl_insertNewA_isSome {ops : List (κ × α)} {m : List (κ × α)}
    {q : κ} (h : (lookupA m q).isSome) :
    (lookupA (ops.foldl (fun m kv => insertNewA m kv.fst kv.snd) m) q).isSome := by
  obtain ⟨v, hv⟩ := Option.isSome_iff_exists.mp h
  rw [lookupA_foldl_insertNewA_some hv]
  rfl

theorem lookupA_foldl_insertNewA_mem {ops : List (κ × α)} (m : List (κ × α))
    {kv : κ × α} (h : kv ∈ ops) :
    (lookupA (ops.foldl (fun m kv => insertNewA m kv.fst kv.snd) m) kv.fst).isSome := by
  induction ops generalizing m with
  | nil => cases h
  | cons kv0 rest ih =>
      rcases List.mem_cons.mp h with h1 | h2
      · subst h1
        rw [List.foldl_cons]
        exact lookupA_foldl_insertNewA_isSome
          (lookupA_insertNewA_self_isSome m kv.fst kv.snd)
      · exact ih _ h2

theorem mem_foldl_insertSet {β : Type} [DecidableEq β]
    {ops : List β} {l : List β} {x : β} (h : x ∈ l) :
    x ∈ ops.foldl insertSet l := by
  induction ops generalizing l with
  | nil => exact h
  | cons b rest ih => exact ih (mem_insertSet_of_mem b h)

theorem mem_foldl_insertSet_of_mem_ops {β : Type} [DecidableEq β]
    {ops : List β} {l : List β} {x : β} (h : x ∈ ops) :
    x ∈ ops.foldl insertSet l := by
  induction ops generalizing l with
  | nil => cases h
  | cons b rest ih =>
      rcases List.mem_cons.mp h with h1 | h2
      · subst h1
        rw [List.foldl_cons]
        exact mem_foldl_insertSet (mem_insertSet_self l x)
      · exact ih h2

end FoldLemmas

/-! ## Field-preservation lemmas for the share / unload machinery -/

section FieldLemmas

@[simp] theorem unloadLibrary_libs (w : World) (h : Nat) :
    (unloadLibrary w h).libs = w.libs := rfl
@[simp] theorem unloadLibrary_heap (w : World) (h : Nat) :
    (unloadLibrary w h).heap = w.heap := rfl
@[simp] theorem unloadLibrary_loader (w : World) (h : Nat) :
    (unloadLibrary w h).loader = w.loader := rfl
@[simp] theorem unloadLibrary_nativeReg (w : World) (h : Nat) :
    (unloadLibrary w h).nativeReg = w.nativeReg := rfl
@[simp] theorem unloadLibrary_dynamicReg (w : World) (h : Nat) :
    (unloadLibrary w h).dynamicReg = w.dynamicReg := rfl
@[simp] theorem unloadLibrary_osRef (w : World) (h : Nat) :
    (unloadLibrary w h).osRef = w.osRef := rfl
@[simp] theorem unloadLibrary_nextId (w : World) (h : Nat) :
    (unloadLibrary w h).nextId = w.nextId := rfl
@[simp] theorem unloadLibrary_registrationOkay (w : World) (h : Nat) :
    (unloadLibrary w h).registrationOkay = w.registrationOkay := rfl

@[simp] theorem dlcloseW_libs (w : World) (h : Nat) :
    (dlcloseW w h).libs = w.libs := by unfold dlcloseW; dsimp only; split <;> rfl
@[simp] theorem dlcloseW_heap (w : World) (h : Nat) :
    (dlcloseW w h).heap = w.heap := by unfold dlcloseW; dsimp only; split <;> rfl
@[simp] theorem dlcloseW_loader (w : World) (h : Nat) :
    (dlcloseW w h).loader = w.loader := by unfold dlcloseW; dsimp only; split <;> rfl
@[simp] theorem dlcloseW_nativeReg (w : World) (h : Nat) :
    (dlcloseW w h).nativeReg = w.nativeReg := by unfold dlcloseW; dsimp only; split <;> rfl
@[simp] theorem dlcloseW_dynamicReg (w : World) (h : Nat) :
    (dlcloseW w h).dynamicReg = w.dynamicReg := by unfold dlcloseW; dsimp only; split <;> rfl
@[simp] theorem dlcloseW_nextId (w : World) (h : Nat) :
    (dlcloseW w h).nextId = w.nextId := by unfold dlcloseW; dsimp only; split <;> rfl
@[simp] theorem dlcloseW_registrationOkay (w : World) (h : Nat) :
    (dlcloseW w h).registrationOkay = w.registrationOkay := by
  unfold dlcloseW; dsimp only; split <;> rfl

@[simp] theorem dropShare_libs (w : World) (old t : Option Nat) :
    (dropShare w old t).libs = w.libs := by
  cases old with
  | none => rfl
  | some h =>
      simp only [dropShare]
      split <;> simp
@[simp] theorem dropShare_heap (w : World) (old t : Option Nat) :
    (dropShare w old t).heap = w.heap := by
  cases old with
  | none => rfl
  | some h =>
      simp only [dropShare]
      split <;> simp
@[simp] theorem dropShare_loader (w : World) (old t : Option Nat) :
    (dropShare w old t).loader = w.loader := by
  cases old with
  | none => rfl
  | some h =>
      simp only [dropShare]
      split <;> simp
@[simp] theorem dropShare_nativeReg (w : World) (old t : Option Nat) :
    (dropShare w old t).nativeReg = w.nativeReg := by
  cases old with
  | none => rfl
  | some h =>
      simp only [dropShare]
      split <;> simp
@[simp] theorem dropShare_dynamicReg (w : World) (old t : Option Nat) :
    (dropShare w old t).dynamicReg = w.dynamicReg := by
  cases old with
  | none => rfl
  | some h =>
      simp only [dropShare]
      split <;> simp
@[simp] theorem dropShare_nextId (w : World) (old t : Option Nat) :
    (dropShare w old t).nextId = w.nextId := by
  cases old with
  | none => rfl
  | some h =>
      simp only [dropShare]
      split <;> simp
@[simp] theorem dropShare_registrationOkay (w : World) (old t : Option Nat) :
    (dropShare w old t).registrationOkay = w.registrationOkay := by
  cases old with
  | none => rfl
  | some h =>
      simp only [dropShare]
      split <;> simp

end FieldLemmas

/-! ## Claim C4: name resolution -/

/-- C4: for every input string, `LookupPlugin` returns the string itself
when it is a key of `plugins`; otherwise an alias with exactly one
canonical name resolves to that name; an alias with several names fails
with an ambiguity diagnostic naming the colliding plugins; anything else
fails with a not-found diagnostic.  Stated as: the implementation agrees
with `LookupSpec`, written from the spec's words. -/
theorem C4_lookup_matches_spec (l : LoaderSt) (s : String) :
    LookupPluginD l s = LookupSpec l s := by
  unfold LookupPluginD LookupSpec
  cases hp : lookupA l.plugins s with
  | some v => simp [hp]
  | none =>
      cases ha : lookupA l.aliases s with
      | none => simp [hp, ha]
      | some entries =>
          match entries with
          | [] => simp [hp, ha]
          | [n] => simp [hp, ha]
          | n1 :: n2 :: rest => simp [hp, ha]

/-! ## Claim C5: ABI sanity rejection in the registration hook -/

/-- C5: when the `sizeof` or `alignof` passed to the registration hook
differs from the host's own value for the descriptor type, the hook
returns a null handle, sets `registrationOkay` to false, and leaves
everything else (the target registry, the descriptor heap, the
allocation counter) untouched; the registry it was not even handed is
untouched a fortiori, so descriptors registered by other calls are
unaffected. -/
theorem C5_hook_abi_mismatch (c : Ctx) (st : HookSt) (inputInfo : Info)
    (isz ial : Nat) (h : isz ≠ c.infoSize ∨ ial ≠ c.infoAlign) :
    IgnitionPluginHook_v1 c st inputInfo isz ial =
      ({ st with registrationOkay := false }, none) := by
  unfold IgnitionPluginHook_v1
  rw [if_pos h]

theorem C5_hook_abi_mismatch_witness :
    IgnitionPluginHook_v1 exCtx
        { reg := [("Q", 0)], heap := [], nextId := 1, registrationOkay := true }
        (exInfo "Z" []) 7 4 =
      ({ reg := [("Q", 0)], heap := [], nextId := 1,
         registrationOkay := false }, none) :=
  C5_hook_abi_mismatch exCtx
    { reg := [("Q", 0)], heap := [], nextId := 1, registrationOkay := true }
    (exInfo "Z" []) 7 4 (Or.inl (by decide))

/-! ## Claim C8: a failed open changes nothing -/

/-- C8: when the operating-system open fails (in the model: the path is
not in `libs`), `LoadLib` returns the empty set and the whole state is
as before — loader tables, both registries, the archive, the heap and
the reference counts included.  (The transient `registrationOkay` flag
is reset to true at entry, as in the source; it is not among the tables
the claim lists.) -/
theorem C8_open_fail_no_change (c : Ctx) (w : World) (p : String)
    (h : lookupA w.libs p = none) :
    LoadLib c w p = ({ w with registrationOkay := true }, []) := by
  unfold LoadLib CreateDlHandle
  simp [h]

theorem C8_open_fail_no_change_witness :
    LoadLib exCtx exW0 "nosuchpath" = ({ exW0 with registrationOkay := true }, []) :=
  C8_open_fail_no_change exCtx exW0 "nosuchpath" (by decide)

/-! ## Claim C3: the registration hook merges, it does not overwrite -/

/-- C3: when the hook receives a descriptor (with correct size and
alignment) whose symbol is already a key of the target registry, the
registry mapping is unchanged, the existing entry's heap cell is updated
in place so that every previously present interface keeps its up-cast
function, every incoming interface key is present, and the union of the
existing and incoming aliases is present. -/
theorem C3_hook_merges (c : Ctx) (st : HookSt) (inputInfo : Info)
    (id : Nat) (e : Info) (st' : HookSt) (r : Option Nat)
    (hreg : lookupA st.reg inputInfo.symbol = some id)
    (hheap : lookupA st.heap id = some e)
    (hp : IgnitionPluginHook_v1 c st inputInfo c.infoSize c.infoAlign = (st', r)) :
    st'.reg = st.reg ∧ r = some id ∧
    ∃ e', lookupA st'.heap id = some e' ∧
      (∀ k v, lookupA e.interfaces k = some v → lookupA e'.interfaces k = some v) ∧
      (∀ kv ∈ inputInfo.interfaces, (lookupA e'.interfaces kv.fst).isSome) ∧
      (∀ a ∈ e.aliases, a ∈ e'.aliases) ∧
      (∀ a ∈ inputInfo.aliases, a ∈ e'.aliases) := by
  simp only [IgnitionPluginHook_v1, ne_eq, not_true_eq_false, or_self,
    if_false, hreg, hheap, Prod.mk.injEq] at hp
  obtain ⟨h1, h2⟩ := hp
  subst h1
  subst h2
  refine ⟨rfl, rfl, _, lookupA_setA_self _ _ _, ?_, ?_, ?_, ?_⟩
  · exact fun k v hv => lookupA_foldl_insertNewA_some hv
  · exact fun kv hkv => lookupA_foldl_insertNewA_mem _ hkv
  · exact fun a ha => mem_foldl_insertSet ha
  · exact fun a ha => mem_foldl_insertSet_of_mem_ops ha

theorem C3_hook_merges_witness :
    (IgnitionPluginHook_v1 exCtx exSt3 exIn3 exCtx.infoSize exCtx.infoAlign).1.reg
        = exSt3.reg ∧
    (IgnitionPluginHook_v1 exCtx exSt3 exIn3 exCtx.infoSize exCtx.infoAlign).2
        = some 0 ∧
    ∃ e', lookupA
        (IgnitionPluginHook_v1 exCtx exSt3 exIn3 exCtx.infoSize exCtx.infoAlign).1.heap
        0 = some e' ∧
      (∀ k v, lookupA exE3.interfaces k = some v →
        lookupA e'.interfaces k = some v) ∧
      (∀ kv ∈ exIn3.interfaces, (lookupA e'.interfaces kv.fst).isSome) ∧
      (∀ a ∈ exE3.aliases, a ∈ e'.aliases) ∧
      (∀ a ∈ exIn3.aliases, a ∈ e'.aliases) :=
  C3_hook_merges exCtx exSt3 exIn3 0 exE3 _ _ (by decide) (by decide) rfl

/-! ## Claim C10: StorePlugins on an already-present name -/

theorem storeStep_heap (dh : Option Nat) (acc : World × List String)
    (id : Nat) : (storeStep dh acc id).1.heap = acc.1.heap := by
  unfold storeStep
  split
  · rfl
  · dsimp only
    split
    · split <;> simp
    · rfl

theorem storeStep_plugins_some {dh : Option Nat} {acc : World × List String}
    {id : Nat} {n : String} {v : Nat}
    (h : lookupA acc.1.loader.plugins n = some v) :
    lookupA (storeStep dh acc id).1.loader.plugins n = some v := by
  unfold storeStep
  split
  · exact h
  · dsimp only
    split
    · split <;> simp <;> exact lookupA_insertNewA_some _ _ h
    · exact lookupA_insertNewA_some _ _ h

theorem foldl_storeStep_plugins_some {ids : List Nat} {dh : Option Nat}
    {acc : World × List String} {n : String} {v : Nat}
    (h : lookupA acc.1.loader.plugins n = some v) :
    lookupA (ids.foldl (storeStep dh) acc).1.loader.plugins n = some v := by
  induction ids generalizing acc with
  | nil => exact h
  | cons id rest ih => exact ih (storeStep_plugins_some h)

theorem storeStep_ptdh_preserve {dh : Option Nat} {acc : World × List String}
    {id : Nat} {n : String}
    (h : lookupA acc.1.loader.pluginToDlHandlePtrs n = some dh) :
    lookupA (storeStep dh acc id).1.loader.pluginToDlHandlePtrs n = some dh := by
  unfold storeStep
  split
  · exact h
  · rename_i plugin heq
    dsimp only
    have hgoal : lookupA
        (setA acc.1.loader.pluginToDlHandlePtrs plugin.name dh) n = some dh := by
      by_cases hn : plugin.name = n
      · subst hn; exact lookupA_setA_self _ _ _
      · rw [lookupA_setA_ne _ _ hn]; exact h
    split
    · split <;> simp <;> exact hgoal
    · exact hgoal

theorem storeStep_ptdh_after {dh : Option Nat} {acc : World × List String}
    {id : Nat} {info : Info} (hid : lookupA acc.1.heap id = some info) :
    lookupA (storeStep dh acc id).1.loader.pluginToDlHandlePtrs info.name
      = some dh := by
  unfold storeStep
  rw [hid]
  dsimp only
  have hgoal : lookupA
      (setA acc.1.loader.pluginToDlHandlePtrs info.name dh) info.name
      = some dh := lookupA_setA_self _ _ _
  split
  · split <;> simp [hgoal]
  · exact hgoal

theorem foldl_storeStep_ptdh_preserve {ids : List Nat} {dh : Option Nat}
    {acc : World × List String} {n : String}
    (h : lookupA acc.1.loader.pluginToDlHandlePtrs n = some dh) :
    lookupA (ids.foldl (storeStep dh) acc).1.loader.pluginToDlHandlePtrs n
      = some dh := by
  induction ids generalizing acc with
  | nil => exact h
  | cons id rest ih => exact ih (storeStep_ptdh_preserve h)

theorem foldl_storeStep_ptdh {ids : List Nat} {dh : Option Nat}
    {acc : World × List String} {n : String}
    (h : ∃ id ∈ ids, ∃ info, lookupA acc.1.heap id = some info ∧ info.name = n) :
    lookupA (ids.foldl (storeStep dh) acc).1.loader.pluginToDlHandlePtrs n
      = some dh := by
  induction ids generalizing acc with
  | nil =>
      obtain ⟨id, h0, _⟩ := h
      cases h0
  | cons id0 rest ih =>
      obtain ⟨id, hmem, info, hinfo, hname⟩ := h
      rcases List.mem_cons.mp hmem with rfl | hmem'
      · subst hname
        rw [List.foldl_cons]
        exact foldl_storeStep_ptdh_preserve (storeStep_ptdh_after hinfo)
      · rw [List.foldl_cons]
        refine ih ⟨id, hmem', info, ?_, hname⟩
        rw [storeStep_heap]
        exact hinfo

/-- C10: when `StorePlugins` receives a descriptor whose canonical name is
already a key of the loader's `plugins` table, the stored descriptor is
kept (map insert does not overwrite) while the plugin-to-library-handle
entry for that name is overwritten with the new library's share. -/
theorem C10_store_keeps_descriptor_overwrites_handle
    (w : World) (ids : List Nat) (dh : Option Nat) (n : String) (oldId : Nat)
    (hold : lookupA w.loader.plugins n = some oldId)
    (hprov : ∃ id ∈ ids, ∃ info, lookupA w.heap id = some info ∧ info.name = n) :
    lookupA (StorePlugins w ids dh).1.loader.plugins n = some oldId ∧
    lookupA (StorePlugins w ids dh).1.loader.pluginToDlHandlePtrs n = some dh := by
  unfold StorePlugins
  dsimp only
  exact ⟨foldl_storeStep_plugins_some hold, foldl_storeStep_ptdh hprov⟩

theorem C10_store_keeps_descriptor_overwrites_handle_witness :
    lookupA (StorePlugins exW1.1 [0] (some 2)).1.loader.plugins "P" = some 0 ∧
    lookupA (StorePlugins exW1.1 [0] (some 2)).1.loader.pluginToDlHandlePtrs "P"
      = some (some 2) :=
  C10_store_keeps_descriptor_overwrites_handle exW1.1 [0] (some 2) "P" 0
    (by decide) ⟨0, by decide, exPInfo, by decide, by decide⟩

/-! ## Claim C9: native plugins are preloaded and cannot be forgotten -/

theorem lookupA_mem_values {κ α : Type} [DecidableEq κ]
    {l : List (κ × α)} {k : κ} {v : α} (h : lookupA l k = some v) :
    v ∈ l.map Prod.snd := by
  induction l with
  | nil => simp at h
  | cons e rest ih =>
      obtain ⟨k', v'⟩ := e
      by_cases hk : k' = k
      · simp [hk] at h
        simp [h]
      · simp [hk] at h
        simp [ih h]

theorem lookupPlugin_self {l : LoaderSt} {n : String}
    (h : (lookupA l.plugins n).isSome) : LookupPlugin l n = n := by
  obtain ⟨v, hv⟩ := Option.isSome_iff_exists.mp h
  unfold LookupPlugin LookupPluginD
  rw [hv]

theorem storeStep_plugins_after {dh : Option Nat} {acc : World × List String}
    {id : Nat} {info : Info} (hid : lookupA acc.1.heap id = some info) :
    (lookupA (storeStep dh acc id).1.loader.plugins info.name).isSome := by
  unfold storeStep
  rw [hid]
  dsimp only
  have hgoal := lookupA_insertNewA_self_isSome acc.1.loader.plugins info.name id
  split
  · split <;> simp [hgoal]
  · exact hgoal

theorem storeStep_plugins_isSome {dh : Option Nat} {acc : World × List String}
    {id : Nat} {n : String} (h : (lookupA acc.1.loader.plugins n).isSome) :
    (lookupA (storeStep dh acc id).1.loader.plugins n).isSome := by
  obtain ⟨v, hv⟩ := Option.isSome_iff_exists.mp h
  rw [storeStep_plugins_some hv]
  rfl

theorem foldl_storeStep_plugins_isSome {ids : List Nat} {dh : Option Nat}
    {acc : World × List String} {n : String}
    (h : (lookupA acc.1.loader.plugins n).isSome) :
    (lookupA (ids.foldl (storeStep dh) acc).1.loader.plugins n).isSome := by
  induction ids generalizing acc with
  | nil => exact h
  | cons id rest ih => exact ih (storeStep_plugins_isSome h)

theorem foldl_storeStep_plugins_mem {ids : List Nat} {dh : Option Nat}
    {acc : World × List String} {n : String}
    (h : ∃ id ∈ ids, ∃ info, lookupA acc.1.heap id = some info ∧ info.name = n) :
    (lookupA (ids.foldl (storeStep dh) acc).1.loader.plugins n).isSome := by
  induction ids generalizing acc with
  | nil =>
      obtain ⟨id, h0, _⟩ := h
      cases h0
  | cons id0 rest ih =>
      obtain ⟨id, hmem, info, hinfo, hname⟩ := h
      rcases List.mem_cons.mp hmem with rfl | hmem'
      · subst hname
        rw [List.foldl_cons]
        exact foldl_storeStep_plugins_isSome (storeStep_plugins_after hinfo)
      · rw [List.foldl_cons]
        refine ih ⟨id, hmem', info, ?_, hname⟩
        rw [storeStep_heap]
        exact hinfo

/-- C9: a freshly constructed loader already holds every native plugin
registered before its construction, stored under a null library handle,
and `ForgetLibraryOfPlugin` on such a plugin returns false and leaves
the world unchanged, because the null handle is rejected before any
erasure. -/
theorem C9_native_preloaded_unforgettable
    (w : World) (sym : String) (id : Nat) (info : Info)
    (hreg : lookupA w.nativeReg sym = some id)
    (hheap : lookupA w.heap id = some info) :
    (lookupA (ConstructLoader w).loader.plugins info.name).isSome ∧
    lookupA (ConstructLoader w).loader.pluginToDlHandlePtrs info.name
      = some none ∧
    ForgetLibraryOfPlugin (ConstructLoader w) info.name
      = (ConstructLoader w, false) := by
  have hex : ∃ i ∈ w.nativeReg.map Prod.snd, ∃ info',
      lookupA ({ w with loader := emptyLoader } : World).heap i = some info' ∧
      info'.name = info.name :=
    ⟨id, lookupA_mem_values hreg, info, hheap, rfl⟩
  have h1 : (lookupA (ConstructLoader w).loader.plugins info.name).isSome := by
    unfold ConstructLoader StorePlugins
    dsimp only
    exact foldl_storeStep_plugins_mem hex
  have h2 : lookupA (ConstructLoader w).loader.pluginToDlHandlePtrs info.name
      = some none := by
    unfold ConstructLoader StorePlugins
    dsimp only
    exact foldl_storeStep_ptdh hex
  refine ⟨h1, h2, ?_⟩
  unfold ForgetLibraryOfPlugin
  dsimp only
  rw [lookupPlugin_self h1, h2]
  rfl

/-! ## Claim C7: what forgetting a library erases -/

/-- C7 counterexample: `exLibA` and `exLibB` both provide a plugin named
"P"; only the second declares the alias "b1".  After loading both,
`ForgetLibraryOfPlugin "P"` succeeds (returns true) and erases "P", yet
the alias entry b1 → ["P"] — an alias entry pointing at the forgotten
name — survives, because the erasure walks the aliases of the *stored*
descriptor (the first library's), not those of the forgotten library. -/
theorem C7_counterexample :
    exW3.2 = true ∧
    lookupA exW3.1.loader.plugins "P" = none ∧
    lookupA exW3.1.loader.aliases "b1" = some ["P"] := by decide

theorem lookupA_mem_pair {κ α : Type} [DecidableEq κ]
    {l : List (κ × α)} {k : κ} {v : α} (h : lookupA l k = some v) :
    (k, v) ∈ l := by
  induction l with
  | nil => simp at h
  | cons e rest ih =>
      obtain ⟨k', v'⟩ := e
      by_cases hk : k' = k
      · subst hk
        simp at h
        simp [h]
      · simp [hk] at h
        simp [ih h]

theorem eraseA_keys_sublist {κ α : Type} [DecidableEq κ]
    (l : List (κ × α)) (k : κ) :
    ((eraseA l k).map Prod.fst).Sublist (l.map Prod.fst) := by
  induction l with
  | nil => simp [eraseA]
  | cons e rest ih =>
      obtain ⟨k', v'⟩ := e
      by_cases hk : k' = k
      · rw [hk]
        simp only [eraseA, if_pos rfl, List.map_cons]
        exact List.sublist_cons_self _ _
      · simpa [eraseA, hk] using ih.cons₂ k'

theorem nodup_keys_eraseA {κ α : Type} [DecidableEq κ]
    {l : List (κ × α)} (k : κ) (hnd : (l.map Prod.fst).Nodup) :
    ((eraseA l k).map Prod.fst).Nodup :=
  (eraseA_keys_sublist l k).nodup hnd

theorem forgetEraseStep_aliases (w : World) (f : String) :
    (forgetEraseStep w f).loader.aliases = w.loader.aliases := by
  unfold forgetEraseStep
  dsimp only
  split <;> simp

theorem forgetEraseStep_dhtp (w : World) (f : String) :
    (forgetEraseStep w f).loader.dlHandleToPluginMap
      = w.loader.dlHandleToPluginMap := by
  unfold forgetEraseStep
  dsimp only
  split <;> simp

theorem forgetEraseStep_plugins (w : World) (f : String) :
    (forgetEraseStep w f).loader.plugins = eraseA w.loader.plugins f := by
  unfold forgetEraseStep
  dsimp only
  split <;> simp

theorem forgetEraseStep_ptdh (w : World) (f : String) :
    (forgetEraseStep w f).loader.pluginToDlHandlePtrs
      = eraseA w.loader.pluginToDlHandlePtrs f := by
  unfold forgetEraseStep
  dsimp only
  split <;> simp

theorem foldl_forgetEraseStep_aliases (ns : List String) (w : World) :
    ((ns.foldl forgetEraseStep w)).loader.aliases = w.loader.aliases := by
  induction ns generalizing w with
  | nil => rfl
  | cons f rest ih => rw [List.foldl_cons, ih, forgetEraseStep_aliases]

theorem foldl_forgetEraseStep_dhtp (ns : List String) (w : World) :
    ((ns.foldl forgetEraseStep w)).loader.dlHandleToPluginMap
      = w.loader.dlHandleToPluginMap := by
  induction ns generalizing w with
  | nil => rfl
  | cons f rest ih => rw [List.foldl_cons, ih, forgetEraseStep_dhtp]

theorem foldl_forgetEraseStep_plugins_none_preserve {ns : List String}
    {w : World} {n : String} (h : lookupA w.loader.plugins n = none) :
    lookupA (ns.foldl forgetEraseStep w).loader.plugins n = none := by
  induction ns generalizing w with
  | nil => exact h
  | cons f rest ih =>
      rw [List.foldl_cons]
      refine ih ?_
      rw [forgetEraseStep_plugins]
      exact lookupA_eraseA_none h

theorem foldl_forgetEraseStep_plugins_none {ns : List String} {w : World}
    {n : String} (hnd : (w.loader.plugins.map Prod.fst).Nodup) (hin : n ∈ ns) :
    lookupA (ns.foldl forgetEraseStep w).loader.plugins n = none := by
  induction ns generalizing w with
  | nil => cases hin
  | cons f rest ih =>
      rw [List.foldl_cons]
      rcases List.mem_cons.mp hin with rfl | hin'
      · refine foldl_forgetEraseStep_plugins_none_preserve ?_
        rw [forgetEraseStep_plugins]
        exact lookupA_eraseA_self hnd
      · refine ih ?_ hin'
        rw [forgetEraseStep_plugins]
        exact nodup_keys_eraseA f hnd

theorem foldl_forgetEraseStep_ptdh_none_preserve {ns : List String}
    {w : World} {n : String}
    (h : lookupA w.loader.pluginToDlHandlePtrs n = none) :
    lookupA (ns.foldl forgetEraseStep w).loader.pluginToDlHandlePtrs n
      = none := by
  induction ns generalizing w with
  | nil => exact h
  | cons f rest ih =>
      rw [List.foldl_cons]
      refine ih ?_
      rw [forgetEraseStep_ptdh]
      exact lookupA_eraseA_none h

theorem foldl_forgetEraseStep_ptdh_none {ns : List String} {w : World}
    {n : String} (hnd : (w.loader.pluginToDlHandlePtrs.map Prod.fst).Nodup)
    (hin : n ∈ ns) :
    lookupA (ns.foldl forgetEraseStep w).loader.pluginToDlHandlePtrs n
      = none := by
  induction ns generalizing w with
  | nil => cases hin
  | cons f rest ih =>
      rw [List.foldl_cons]
      rcases List.mem_cons.mp hin with rfl | hin'
      · refine foldl_forgetEraseStep_ptdh_none_preserve ?_
        rw [forgetEraseStep_ptdh]
        exact lookupA_eraseA_self hnd
      · refine ih ?_ hin'
        rw [forgetEraseStep_ptdh]
        exact nodup_keys_eraseA f hnd

/-- After `aliases.at(a).erase(name)`, the set under `a` is free of
`name` (given that the set contained no duplicates). -/
theorem eraseAliasEntry_not_mem {name : String}
    {m : List (String × List String)} {a : String}
    (hq : ∀ a' s, lookupA m a' = some s → s.Nodup) :
    ∀ s, lookupA (eraseAliasEntry name m a) a = some s → name ∉ s := by
  unfold eraseAliasEntry
  cases hm : lookupA m a with
  | none =>
      intro s hs
      rw [hm] at hs
      cases hs
  | some s0 =>
      intro s hs
      rw [lookupA_setA_self] at hs
      cases hs
      intro hmem
      exact ((hq a s0 hm).mem_erase_iff.mp hmem).1 rfl

theorem eraseAliasEntry_preserve_not_mem {name0 name' : String}
    {m : List (String × List String)} {a a' : String}
    (hp : ∀ s, lookupA m a = some s → name0 ∉ s) :
    ∀ s, lookupA (eraseAliasEntry name' m a') a = some s → name0 ∉ s := by
  unfold eraseAliasEntry
  cases hm : lookupA m a' with
  | none => exact hp
  | some s0 =>
      intro s hs
      by_cases ha : a' = a
      · subst ha
        rw [lookupA_setA_self] at hs
        cases hs
        intro hmem
        exact hp s0 hm (List.mem_of_mem_erase hmem)
      · rw [lookupA_setA_ne _ _ ha] at hs
        exact hp s hs

theorem eraseAliasEntry_preserve_nodup {name' : String}
    {m : List (String × List String)} {a' : String}
    (hq : ∀ a s, lookupA m a = some s → s.Nodup) :
    ∀ a s, lookupA (eraseAliasEntry name' m a') a = some s → s.Nodup := by
  unfold eraseAliasEntry
  cases hm : lookupA m a' with
  | none => exact hq
  | some s0 =>
      intro a s hs
      by_cases ha : a' = a
      · subst ha
        rw [lookupA_setA_self] at hs
        cases hs
        exact (hq _ _ hm).erase _
      · rw [lookupA_setA_ne _ _ ha] at hs
        exact hq _ _ hs

theorem foldl_eraseAliasEntry_preserve_not_mem {name0 name' : String}
    {ops : List String} {m : List (String × List String)} {a : String}
    (hp : ∀ s, lookupA m a = some s → name0 ∉ s) :
    ∀ s, lookupA (ops.foldl (eraseAliasEntry name') m) a = some s →
      name0 ∉ s := by
  induction ops generalizing m with
  | nil => exact hp
  | cons b rest ih =>
      rw [List.foldl_cons]
      exact ih (eraseAliasEntry_preserve_not_mem hp)

theorem foldl_eraseAliasEntry_preserve_nodup {name' : String}
    {ops : List String} {m : List (String × List String)}
    (hq : ∀ a s, lookupA m a = some s → s.Nodup) :
    ∀ a s, lookupA (ops.foldl (eraseAliasEntry name') m) a = some s →
      s.Nodup := by
  induction ops generalizing m with
  | nil => exact hq
  | cons b rest ih =>
      rw [List.foldl_cons]
      exact ih (eraseAliasEntry_preserve_nodup hq)

theorem foldl_eraseAliasEntry_mem {name : String} {ops : List String}
    {m : List (String × List String)} {a : String} (ha : a ∈ ops)
    (hq : ∀ a' s, lookupA m a' = some s → s.Nodup) :
    ∀ s, lookupA (ops.foldl (eraseAliasEntry name) m) a = some s →
      name ∉ s := by
  induction ops generalizing m with
  | nil => cases ha
  | cons b rest ih =>
      rw [List.foldl_cons]
      rcases List.mem_cons.mp ha with rfl | ha'
      · exact foldl_eraseAliasEntry_preserve_not_mem
          (eraseAliasEntry_not_mem hq)
      · exact ih ha' (eraseAliasEntry_preserve_nodup hq)

theorem forgetAliasStep_preserve_not_mem {l : LoaderSt}
    {heap : List (Nat × Info)} {m : List (String × List String)}
    {f : String} {a name0 : String}
    (hp : ∀ s, lookupA m a = some s → name0 ∉ s) :
    ∀ s, lookupA (forgetAliasStep l heap m f) a = some s → name0 ∉ s := by
  cases hpl : lookupA l.plugins f with
  | none =>
      simp only [forgetAliasStep, hpl]
      exact hp
  | some id =>
      cases hh : lookupA heap id with
      | none =>
          simp only [forgetAliasStep, hpl, hh]
          exact hp
      | some info =>
          simp only [forgetAliasStep, hpl, hh]
          exact foldl_eraseAliasEntry_preserve_not_mem hp

theorem forgetAliasStep_preserve_nodup {l : LoaderSt}
    {heap : List (Nat × Info)} {m : List (String × List String)} {f : String}
    (hq : ∀ a s, lookupA m a = some s → s.Nodup) :
    ∀ a s, lookupA (forgetAliasStep l heap m f) a = some s → s.Nodup := by
  cases hpl : lookupA l.plugins f with
  | none =>
      simp only [forgetAliasStep, hpl]
      exact hq
  | some id =>
      cases hh : lookupA heap id with
      | none =>
          simp only [forgetAliasStep, hpl, hh]
          exact hq
      | some info =>
          simp only [forgetAliasStep, hpl, hh]
          exact foldl_eraseAliasEntry_preserve_nodup hq

theorem foldl_forgetAliasStep_preserve_not_mem {l : LoaderSt}
    {heap : List (Nat × Info)} {ns : List String}
    {m : List (String × List String)} {a name0 : String}
    (hp : ∀ s, lookupA m a = some s → name0 ∉ s) :
    ∀ s, lookupA (ns.foldl (forgetAliasStep l heap) m) a = some s →
      name0 ∉ s := by
  induction ns generalizing m with
  | nil => exact hp
  | cons f rest ih =>
      rw [List.foldl_cons]
      exact ih (forgetAliasStep_preserve_not_mem hp)

theorem foldl_forgetAliasStep_erased {l : LoaderSt}
    {heap : List (Nat × Info)} {ns : List String}
    {m : List (String × List String)} {n : String} {id : Nat} {info : Info}
    {a : String}
    (hn : n ∈ ns) (hid : lookupA l.plugins n = some id)
    (hinfo : lookupA heap id = some info) (ha : a ∈ info.aliases)
    (hq : ∀ a' s, lookupA m a' = some s → s.Nodup) :
    ∀ s, lookupA (ns.foldl (forgetAliasStep l heap) m) a = some s →
      info.name ∉ s := by
  induction ns generalizing m with
  | nil => cases hn
  | cons f rest ih =>
      rw [List.foldl_cons]
      rcases List.mem_cons.mp hn with rfl | hn'
      · refine foldl_forgetAliasStep_preserve_not_mem ?_
        simp only [forgetAliasStep, hid, hinfo]
        exact foldl_eraseAliasEntry_mem ha hq
      · exact ih hn' (forgetAliasStep_preserve_nodup hq)

/-- C7 amended: a successful forget (through either `forget_library` or
`forget_library_of_plugin`, both of which delegate to
`Implementation::ForgetLibrary`) removes every forgotten plugin name
from `plugins` and from `pluginToDlHandlePtrs` (dropping the stored
shares), removes the library's `dlHandleToPluginMap` entry, and removes
each forgotten plugin's name from the alias sets of the aliases listed
in its *stored* descriptor.  (Alias entries contributed by a different
library's descriptor under the same plugin name may survive — this is
the correction forced by the counterexample.) -/
theorem C7_forget_amended (w : World) (h : Nat) (forgotten : List String)
    (hmap : lookupA w.loader.dlHandleToPluginMap (some h) = some forgotten)
    (hnd1 : (w.loader.plugins.map Prod.fst).Nodup)
    (hnd2 : (w.loader.pluginToDlHandlePtrs.map Prod.fst).Nodup)
    (hnd3 : (w.loader.dlHandleToPluginMap.map Prod.fst).Nodup)
    (hsets : ∀ e ∈ w.loader.aliases, (e.2 : List String).Nodup) :
    (ImplForgetLibrary w (some h)).2 = true ∧
    (∀ n ∈ forgotten,
      lookupA (ImplForgetLibrary w (some h)).1.loader.plugins n = none) ∧
    (∀ n ∈ forgotten,
      lookupA (ImplForgetLibrary w (some h)).1.loader.pluginToDlHandlePtrs n
        = none) ∧
    lookupA (ImplForgetLibrary w (some h)).1.loader.dlHandleToPluginMap
      (some h) = none ∧
    (∀ n ∈ forgotten, ∀ id info, lookupA w.loader.plugins n = some id →
      lookupA w.heap id = some info → ∀ a ∈ info.aliases, ∀ s,
      lookupA (ImplForgetLibrary w (some h)).1.loader.aliases a = some s →
      info.name ∉ s) := by
  have hq : ∀ a s, lookupA w.loader.aliases a = some s → s.Nodup :=
    fun a s hs => hsets (a, s) (lookupA_mem_pair hs)
  simp only [ImplForgetLibrary, hmap]
  refine ⟨trivial, ?_, ?_, ?_, ?_⟩
  · intro n hn
    exact foldl_forgetEraseStep_plugins_none hnd1 hn
  · intro n hn
    exact foldl_forgetEraseStep_ptdh_none hnd2 hn
  · rw [foldl_forgetEraseStep_dhtp]
    exact lookupA_eraseA_self hnd3
  · intro n hn id info hid hinfo a ha s hs
    rw [foldl_forgetEraseStep_aliases] at hs
    exact foldl_forgetAliasStep_erased hn hid hinfo ha hq s hs

theorem C7_forget_amended_witness :
    (ImplForgetLibrary exW2.1 (some 2)).2 = true ∧
    (∀ n ∈ ["P"],
      lookupA (ImplForgetLibrary exW2.1 (some 2)).1.loader.plugins n = none) ∧
    (∀ n ∈ ["P"],
      lookupA (ImplForgetLibrary exW2.1 (some 2)).1.loader.pluginToDlHandlePtrs
        n = none) ∧
    lookupA (ImplForgetLibrary exW2.1 (some 2)).1.loader.dlHandleToPluginMap
      (some 2) = none ∧
    (∀ n ∈ ["P"], ∀ id info, lookupA exW2.1.loader.plugins n = some id →
      lookupA exW2.1.heap id = some info → ∀ a ∈ info.aliases, ∀ s,
      lookupA (ImplForgetLibrary exW2.1 (some 2)).1.loader.aliases a = some s →
      info.name ∉ s) :=
  C7_forget_amended exW2.1 2 ["P"] (by decide) (by decide) (by decide)
    (by decide) (by decide)

/-! ## Claim C6: the legacy entry point is not a fallback -/

/-- C6 counterexample: the library `exLibLeg` exports the legacy entry
point (producing "OldP") and also registers "NewP" through the new hook.
Loading it returns BOTH names and stores both descriptors: the legacy
hook was invoked and its output used even though the newer registration
produced a descriptor, contradicting the claim that the legacy hook is
used only if the newer registration produced nothing. -/
theorem C6_counterexample :
    exWLeg.2 = ["OldP", "NewP"] ∧
    (lookupA exWLeg.1.loader.plugins "OldP").isSome ∧
    (lookupA exWLeg.1.loader.plugins "NewP").isSome := by decide

/-- C6 amended: when the library has no archive entry, the host invokes
the legacy hook whenever the library exports its symbol — regardless of
whether the newer registration produced descriptors — and the received
list is the legacy hook's output followed by everything drained from the
dynamic registry. -/
theorem C6_legacy_combined_amended (c : Ctx) (w : World) (lib : Library)
    (leg : LegacyHook)
    (hmiss : lookupA w.archive.dlHandleToInfo lib.handle = none)
    (hleg : lib.legacy = some leg) :
    (ReceivePlugins c w lib).2 =
      (OldIgnitionHook c w leg).2 ++
        ((OldIgnitionHook c w leg).1.dynamicReg.map Prod.snd) := by
  unfold ReceivePlugins
  rw [hmiss, hleg]

theorem C6_legacy_combined_amended_witness :
    (ReceivePlugins exCtx exWRec exLibLeg).2 =
      (OldIgnitionHook exCtx exWRec exLegacy).2 ++
        ((OldIgnitionHook exCtx exWRec exLegacy).1.dynamicReg.map Prod.snd) :=
  C6_legacy_combined_amended exCtx exWRec exLibLeg exLegacy (by decide) (by decide)

theorem C9_native_preloaded_unforgettable_witness :
    (lookupA (ConstructLoader exN0).loader.plugins exPInfo.name).isSome ∧
    lookupA (ConstructLoader exN0).loader.pluginToDlHandlePtrs exPInfo.name
      = some none ∧
    ForgetLibraryOfPlugin (ConstructLoader exN0) exPInfo.name
      = (ConstructLoader exN0, false) :=
  C9_native_preloaded_unforgettable exN0 "P" 0 exPInfo (by decide) (by decide)

/-! ## Claim C1: heap-name invariants through a load -/

theorem NN_append_single {h : List (Nat × Info)} {k : Nat} {v : Info}
    (hn : NN h) (hv : v.name ≠ "") : NN (h ++ [(k, v)]) := by
  intro id info hl
  cases hq : lookupA h id with
  | some info0 =>
      rw [lookupA_append_some _ hq] at hl
      cases hl
      exact hn _ _ hq
  | none =>
      rw [lookupA_append_none _ hq] at hl
      simp only [lookupA_cons, lookupA_nil] at hl
      by_cases hk : k = id
      · rw [if_pos hk] at hl
        cases hl
        exact hv
      · rw [if_neg hk] at hl
        cases hl

theorem NN_setA {h : List (Nat × Info)} {k : Nat} {v : Info}
    (hn : NN h) (hv : v.name ≠ "") : NN (setA h k v) := by
  intro id info hl
  by_cases hk : k = id
  · subst hk
    rw [lookupA_setA_self] at hl
    cases hl
    exact hv
  · rw [lookupA_setA_ne _ _ hk] at hl
    exact hn _ _ hl

theorem HeapExt.refl (h : List (Nat × Info)) : HeapExt h h :=
  fun _ info hl => ⟨info, hl, rfl⟩

theorem HeapExt.trans {h1 h2 h3 : List (Nat × Info)}
    (a : HeapExt h1 h2) (b : HeapExt h2 h3) : HeapExt h1 h3 := by
  intro id info hl
  obtain ⟨i2, hl2, hn2⟩ := a id info hl
  obtain ⟨i3, hl3, hn3⟩ := b id i2 hl2
  exact ⟨i3, hl3, hn3.trans hn2⟩

theorem HeapExt_append (h : List (Nat × Info)) (e : Nat × Info) :
    HeapExt h (h ++ [e]) :=
  fun _ info hl => ⟨info, lookupA_append_some _ hl, rfl⟩

/-- The registration hook never removes a descriptor and never renames
one. -/
theorem hook_HeapExt (c : Ctx) (st : HookSt) (info : Info) (isz ial : Nat) :
    HeapExt st.heap (IgnitionPluginHook_v1 c st info isz ial).1.heap := by
  unfold IgnitionPluginHook_v1
  split
  · exact HeapExt.refl _
  · cases hr : lookupA st.reg info.symbol with
    | none =>
        dsimp only
        exact HeapExt_append _ _
    | some id =>
        dsimp only
        cases hh : lookupA st.heap id with
        | none => exact HeapExt.refl _
        | some e =>
            dsimp only
            intro q iq hq
            by_cases hqid : id = q
            · subst hqid
              rw [hh] at hq
              cases hq
              exact ⟨_, lookupA_setA_self _ _ _, rfl⟩
            · exact ⟨iq, by rw [lookupA_setA_ne _ _ hqid]; exact hq, rfl⟩

/-- Given a demangler that never returns the empty string, the hook keeps
every heap name non-empty. -/
theorem hook_NN {c : Ctx} (st : HookSt) (info : Info) (isz ial : Nat)
    (hdem : ∀ s, c.dem s ≠ "") (hn : NN st.heap) :
    NN (IgnitionPluginHook_v1 c st info isz ial).1.heap := by
  unfold IgnitionPluginHook_v1
  split
  · exact hn
  · cases hr : lookupA st.reg info.symbol with
    | none =>
        dsimp only
        exact NN_append_single hn (hdem _)
    | some id =>
        dsimp only
        cases hh : lookupA st.heap id with
        | none => exact hn
        | some e =>
            dsimp only
            refine NN_setA hn ?_
            show e.name ≠ ""
            exact hn _ _ hh

theorem initStep_loader (c : Ctx) (h : Nat) (w : World) (rc : RegCall) :
    (initStep c h w rc).loader = w.loader := by
  unfold initStep
  dsimp only
  split <;> rfl

theorem initStep_libs (c : Ctx) (h : Nat) (w : World) (rc : RegCall) :
    (initStep c h w rc).libs = w.libs := by
  unfold initStep
  dsimp only
  split <;> rfl

theorem initStep_nativeReg (c : Ctx) (h : Nat) (w : World) (rc : RegCall) :
    (initStep c h w rc).nativeReg = w.nativeReg := by
  unfold initStep
  dsimp only
  split <;> rfl

theorem initStep_archive (c : Ctx) (h : Nat) (w : World) (rc : RegCall) :
    (initStep c h w rc).archive = w.archive := by
  unfold initStep
  dsimp only
  split <;> rfl

theorem initStep_heap_eq (c : Ctx) (h : Nat) (w : World) (rc : RegCall) :
    (initStep c h w rc).heap =
      (IgnitionPluginHook_v1 c
        { reg := w.dynamicReg, heap := w.heap, nextId := w.nextId,
          registrationOkay := w.registrationOkay }
        rc.info rc.size rc.align).1.heap := by
  unfold initStep
  dsimp only
  split <;> rfl

theorem runInits_loader (c : Ctx) (w : World) (lib : Library) :
    (runInits c w lib).loader = w.loader := by
  unfold runInits
  generalize lib.regCalls = rcs
  induction rcs generalizing w with
  | nil => rfl
  | cons rc rest ih => rw [List.foldl_cons, ih, initStep_loader]

theorem runInits_libs (c : Ctx) (w : World) (lib : Library) :
    (runInits c w lib).libs = w.libs := by
  unfold runInits
  generalize lib.regCalls = rcs
  induction rcs generalizing w with
  | nil => rfl
  | cons rc rest ih => rw [List.foldl_cons, ih, initStep_libs]

theorem runInits_nativeReg (c : Ctx) (w : World) (lib : Library) :
    (runInits c w lib).nativeReg = w.nativeReg := by
  unfold runInits
  generalize lib.regCalls = rcs
  induction rcs generalizing w with
  | nil => rfl
  | cons rc rest ih => rw [List.foldl_cons, ih, initStep_nativeReg]

theorem runInits_NN {c : Ctx} (w : World) (lib : Library)
    (hdem : ∀ s, c.dem s ≠ "") (hn : NN w.heap) :
    NN (runInits c w lib).heap := by
  unfold runInits
  generalize lib.regCalls = rcs
  induction rcs generalizing w with
  | nil => exact hn
  | cons rc rest ih =>
      rw [List.foldl_cons]
      refine ih _ ?_
      rw [initStep_heap_eq]
      exact hook_NN _ _ _ _ hdem hn

theorem runInits_HeapExt (c : Ctx) (w : World) (lib : Library) :
    HeapExt w.heap (runInits c w lib).heap := by
  unfold runInits
  generalize lib.regCalls = rcs
  induction rcs generalizing w with
  | nil => exact HeapExt.refl _
  | cons rc rest ih =>
      rw [List.foldl_cons]
      refine HeapExt.trans ?_ (ih _)
      rw [initStep_heap_eq]
      exact hook_HeapExt c
        { reg := w.dynamicReg, heap := w.heap, nextId := w.nextId,
          registrationOkay := w.registrationOkay } rc.info rc.size rc.align

theorem oldHookStep_loader (c : Ctx) (acc : World × List Nat)
    (entry : String × V1Info) : (oldHookStep c acc entry).1.loader = acc.1.loader := rfl

theorem oldHookStep_libs (c : Ctx) (acc : World × List Nat)
    (entry : String × V1Info) : (oldHookStep c acc entry).1.libs = acc.1.libs := rfl

theorem oldHookStep_nativeReg (c : Ctx) (acc : World × List Nat)
    (entry : String × V1Info) :
    (oldHookStep c acc entry).1.nativeReg = acc.1.nativeReg := rfl

theorem oldHookStep_dynamicReg (c : Ctx) (acc : World × List Nat)
    (entry : String × V1Info) :
    (oldHookStep c acc entry).1.dynamicReg = acc.1.dynamicReg := rfl

theorem oldHookStep_NN {c : Ctx} {acc : World × List Nat}
    {entry : String × V1Info} (hdem : ∀ s, c.dem s ≠ "")
    (hn : NN acc.1.heap) : NN (oldHookStep c acc entry).1.heap := by
  refine NN_append_single hn ?_
  show c.dem entry.2.name ≠ ""
  exact hdem _

theorem oldHookStep_HeapExt (c : Ctx) (acc : World × List Nat)
    (entry : String × V1Info) :
    HeapExt acc.1.heap (oldHookStep c acc entry).1.heap :=
  HeapExt_append _ _

theorem foldl_oldHookStep_loader (c : Ctx) (entries : List (String × V1Info))
    (acc : World × List Nat) :
    (entries.foldl (oldHookStep c) acc).1.loader = acc.1.loader := by
  induction entries generalizing acc with
  | nil => rfl
  | cons e rest ih => rw [List.foldl_cons, ih, oldHookStep_loader]

theorem foldl_oldHookStep_libs (c : Ctx) (entries : List (String × V1Info))
    (acc : World × List Nat) :
    (entries.foldl (oldHookStep c) acc).1.libs = acc.1.libs := by
  induction entries generalizing acc with
  | nil => rfl
  | cons e rest ih => rw [List.foldl_cons, ih, oldHookStep_libs]

theorem foldl_oldHookStep_nativeReg (c : Ctx)
    (entries : List (String × V1Info)) (acc : World × List Nat) :
    (entries.foldl (oldHookStep c) acc).1.nativeReg = acc.1.nativeReg := by
  induction entries generalizing acc with
  | nil => rfl
  | cons e rest ih => rw [List.foldl_cons, ih, oldHookStep_nativeReg]

theorem foldl_oldHookStep_dynamicReg (c : Ctx)
    (entries : List (String × V1Info)) (acc : World × List Nat) :
    (entries.foldl (oldHookStep c) acc).1.dynamicReg = acc.1.dynamicReg := by
  induction entries generalizing acc with
  | nil => rfl
  | cons e rest ih => rw [List.foldl_cons, ih, oldHookStep_dynamicReg]

theorem foldl_oldHookStep_NN {c : Ctx} {entries : List (String × V1Info)}
    {acc : World × List Nat} (hdem : ∀ s, c.dem s ≠ "")
    (hn : NN acc.1.heap) : NN ((entries.foldl (oldHookStep c) acc)).1.heap := by
  induction entries generalizing acc with
  | nil => exact hn
  | cons e rest ih =>
      rw [List.foldl_cons]
      exact ih (oldHookStep_NN hdem hn)

theorem foldl_oldHookStep_HeapExt (c : Ctx) (entries : List (String × V1Info))
    (acc : World × List Nat) :
    HeapExt acc.1.heap ((entries.foldl (oldHookStep c) acc)).1.heap := by
  induction entries generalizing acc with
  | nil => exact HeapExt.refl _
  | cons e rest ih =>
      rw [List.foldl_cons]
      exact HeapExt.trans (oldHookStep_HeapExt c acc e) (ih _)

theorem OldIgnitionHook_loader (c : Ctx) (w : World) (leg : LegacyHook) :
    (OldIgnitionHook c w leg).1.loader = w.loader := by
  unfold OldIgnitionHook
  split
  · rfl
  split
  · rfl
  split
  · rfl
  · exact foldl_oldHookStep_loader _ _ _

theorem OldIgnitionHook_libs (c : Ctx) (w : World) (leg : LegacyHook) :
    (OldIgnitionHook c w leg).1.libs = w.libs := by
  unfold OldIgnitionHook
  split
  · rfl
  split
  · rfl
  split
  · rfl
  · exact foldl_oldHookStep_libs _ _ _

theorem OldIgnitionHook_nativeReg (c : Ctx) (w : World) (leg : LegacyHook) :
    (OldIgnitionHook c w leg).1.nativeReg = w.nativeReg := by
  unfold OldIgnitionHook
  split
  · rfl
  split
  · rfl
  split
  · rfl
  · exact foldl_oldHookStep_nativeReg _ _ _

theorem OldIgnitionHook_dynamicReg (c : Ctx) (w : World) (leg : LegacyHook) :
    (OldIgnitionHook c w leg).1.dynamicReg = w.dynamicReg := by
  unfold OldIgnitionHook
  split
  · rfl
  split
  · rfl
  split
  · rfl
  · exact foldl_oldHookStep_dynamicReg _ _ _

theorem OldIgnitionHook_NN {c : Ctx} {w : World} {leg : LegacyHook}
    (hdem : ∀ s, c.dem s ≠ "") (hn : NN w.heap) :
    NN (OldIgnitionHook c w leg).1.heap := by
  unfold OldIgnitionHook
  split
  · exact hn
  split
  · exact hn
  split
  · exact hn
  · exact foldl_oldHookStep_NN hdem hn

theorem OldIgnitionHook_HeapExt (c : Ctx) (w : World) (leg : LegacyHook) :
    HeapExt w.heap (OldIgnitionHook c w leg).1.heap := by
  unfold OldIgnitionHook
  split
  · exact HeapExt.refl _
  split
  · exact HeapExt.refl _
  split
  · exact HeapExt.refl _
  · rename_i entries heq
    exact foldl_oldHookStep_HeapExt c entries (w, [])

theorem ReceivePlugins_loader (c : Ctx) (w : World) (lib : Library) :
    (ReceivePlugins c w lib).1.loader = w.loader := by
  unfold ReceivePlugins
  split
  · rfl
  · dsimp only
    cases lib.legacy with
    | none => rfl
    | some leg =>
        dsimp only
        exact OldIgnitionHook_loader c w leg

theorem ReceivePlugins_libs (c : Ctx) (w : World) (lib : Library) :
    (ReceivePlugins c w lib).1.libs = w.libs := by
  unfold ReceivePlugins
  split
  · rfl
  · dsimp only
    cases lib.legacy with
    | none => rfl
    | some leg =>
        dsimp only
        exact OldIgnitionHook_libs c w leg

theorem ReceivePlugins_nativeReg (c : Ctx) (w : World) (lib : Library) :
    (ReceivePlugins c w lib).1.nativeReg = w.nativeReg := by
  unfold ReceivePlugins
  split
  · rfl
  · dsimp only
    cases lib.legacy with
    | none => rfl
    | some leg =>
        dsimp only
        exact OldIgnitionHook_nativeReg c w leg

theorem ReceivePlugins_NN {c : Ctx} {w : World} {lib : Library}
    (hdem : ∀ s, c.dem s ≠ "") (hn : NN w.heap) :
    NN (ReceivePlugins c w lib).1.heap := by
  unfold ReceivePlugins
  split
  · exact hn
  · dsimp only
    cases lib.legacy with
    | none => exact hn
    | some leg =>
        dsimp only
        exact OldIgnitionHook_NN hdem hn

theorem ReceivePlugins_HeapExt (c : Ctx) (w : World) (lib : Library) :
    HeapExt w.heap (ReceivePlugins c w lib).1.heap := by
  unfold ReceivePlugins
  split
  · exact HeapExt.refl _
  · dsimp only
    cases lib.legacy with
    | none => exact HeapExt.refl _
    | some leg =>
        dsimp only
        exact OldIgnitionHook_HeapExt c w leg

theorem storeStep_libs (dh : Option Nat) (acc : World × List String)
    (id : Nat) : (storeStep dh acc id).1.libs = acc.1.libs := by
  unfold storeStep
  split
  · rfl
  · dsimp only
    split
    · split <;> simp
    · rfl

theorem storeStep_nativeReg (dh : Option Nat) (acc : World × List String)
    (id : Nat) : (storeStep dh acc id).1.nativeReg = acc.1.nativeReg := by
  unfold storeStep
  split
  · rfl
  · dsimp only
    split
    · split <;> simp
    · rfl

theorem foldl_storeStep_heap (ids : List Nat) (dh : Option Nat)
    (acc : World × List String) :
    (ids.foldl (storeStep dh) acc).1.heap = acc.1.heap := by
  induction ids generalizing acc with
  | nil => rfl
  | cons id rest ih => rw [List.foldl_cons, ih, storeStep_heap]

theorem foldl_storeStep_libs (ids : List Nat) (dh : Option Nat)
    (acc : World × List String) :
    (ids.foldl (storeStep dh) acc).1.libs = acc.1.libs := by
  induction ids generalizing acc with
  | nil => rfl
  | cons id rest ih => rw [List.foldl_cons, ih, storeStep_libs]

theorem foldl_storeStep_nativeReg (ids : List Nat) (dh : Option Nat)
    (acc : World × List String) :
    (ids.foldl (storeStep dh) acc).1.nativeReg = acc.1.nativeReg := by
  induction ids generalizing acc with
  | nil => rfl
  | cons id rest ih => rw [List.foldl_cons, ih, storeStep_nativeReg]

theorem StorePlugins_heap (w : World) (ids : List Nat) (dh : Option Nat) :
    (StorePlugins w ids dh).1.heap = w.heap := by
  unfold StorePlugins
  dsimp only
  exact foldl_storeStep_heap ids dh (w, [])

theorem StorePlugins_nativeReg (w : World) (ids : List Nat) (dh : Option Nat) :
    (StorePlugins w ids dh).1.nativeReg = w.nativeReg := by
  unfold StorePlugins
  dsimp only
  exact foldl_storeStep_nativeReg ids dh (w, [])

theorem dlopenW_loader (c : Ctx) (w : World) (lib : Library) :
    (dlopenW c w lib).loader = w.loader := by
  unfold dlopenW
  dsimp only
  split
  · rfl
  · rw [runInits_loader]

theorem dlopenW_libs (c : Ctx) (w : World) (lib : Library) :
    (dlopenW c w lib).libs = w.libs := by
  unfold dlopenW
  dsimp only
  split
  · rfl
  · rw [runInits_libs]

theorem dlopenW_nativeReg (c : Ctx) (w : World) (lib : Library) :
    (dlopenW c w lib).nativeReg = w.nativeReg := by
  unfold dlopenW
  dsimp only
  split
  · rfl
  · rw [runInits_nativeReg]

theorem dlopenW_NN {c : Ctx} {w : World} {lib : Library}
    (hdem : ∀ s, c.dem s ≠ "") (hn : NN w.heap) :
    NN (dlopenW c w lib).heap := by
  unfold dlopenW
  dsimp only
  split
  · exact hn
  · exact runInits_NN _ _ hdem hn

theorem dlopenW_HeapExt (c : Ctx) (w : World) (lib : Library) :
    HeapExt w.heap (dlopenW c w lib).heap := by
  unfold dlopenW
  dsimp only
  split
  · exact HeapExt.refl _
  · exact runInits_HeapExt c
      { w with osRef := setA w.osRef lib.handle (osRefGet w lib.handle + 1) }
      lib

theorem CreateDlHandle_snd {c : Ctx} {w : World} {p : String} {lib : Library}
    (hlib : lookupA w.libs p = some lib) :
    (CreateDlHandle c w p).2 = some lib.handle := by
  simp only [CreateDlHandle, hlib]
  split
  · split <;> rfl
  · rfl

theorem CreateDlHandle_libs (c : Ctx) (w : World) (p : String) :
    (CreateDlHandle c w p).1.libs = w.libs := by
  unfold CreateDlHandle
  split
  · rfl
  · dsimp only
    split
    · split <;> simp [dlopenW_libs]
    · simp [dlopenW_libs]

theorem CreateDlHandle_nativeReg (c : Ctx) (w : World) (p : String) :
    (CreateDlHandle c w p).1.nativeReg = w.nativeReg := by
  unfold CreateDlHandle
  split
  · rfl
  · dsimp only
    split
    · split <;> simp [dlopenW_nativeReg]
    · simp [dlopenW_nativeReg]

theorem CreateDlHandle_plugins (c : Ctx) (w : World) (p : String) :
    (CreateDlHandle c w p).1.loader.plugins = w.loader.plugins := by
  unfold CreateDlHandle
  split
  · rfl
  · dsimp only
    split
    · split <;> simp [dlopenW_loader]
    · simp
      rw [dlopenW_loader]

theorem CreateDlHandle_ptdh (c : Ctx) (w : World) (p : String) :
    (CreateDlHandle c w p).1.loader.pluginToDlHandlePtrs
      = w.loader.pluginToDlHandlePtrs := by
  unfold CreateDlHandle
  split
  · rfl
  · dsimp only
    split
    · split <;> simp [dlopenW_loader]
    · simp
      rw [dlopenW_loader]

theorem CreateDlHandle_NN {c : Ctx} {w : World} {p : String}
    (hdem : ∀ s, c.dem s ≠ "") (hn : NN w.heap) :
    NN (CreateDlHandle c w p).1.heap := by
  unfold CreateDlHandle
  split
  · exact hn
  · dsimp only
    split
    · split
      · simpa using dlopenW_NN hdem hn
      · exact dlopenW_NN hdem hn
    · exact dlopenW_NN hdem hn

theorem CreateDlHandle_HeapExt (c : Ctx) (w : World) (p : String) :
    HeapExt w.heap (CreateDlHandle c w p).1.heap := by
  unfold CreateDlHandle
  split
  · exact HeapExt.refl _
  · dsimp only
    split
    · split
      · simpa using dlopenW_HeapExt c w _
      · exact dlopenW_HeapExt c w _
    · exact dlopenW_HeapExt c w _

theorem storeStep_plugins_eq (dh : Option Nat) (acc : World × List String)
    (id : Nat) :
    (storeStep dh acc id).1.loader.plugins =
      (match lookupA acc.1.heap id with
       | none => acc.1.loader.plugins
       | some plugin => insertNewA acc.1.loader.plugins plugin.name id) := by
  unfold storeStep
  cases hh : lookupA acc.1.heap id with
  | none => rfl
  | some plugin =>
      dsimp only
      split
      · split <;> simp
      · rfl

theorem storeStep_names_eq (dh : Option Nat) (acc : World × List String)
    (id : Nat) :
    (storeStep dh acc id).2 =
      (match lookupA acc.1.heap id with
       | none => acc.2
       | some plugin => insertSet acc.2 plugin.name) := by
  unfold storeStep
  cases hh : lookupA acc.1.heap id with
  | none => rfl
  | some plugin => dsimp only

theorem foldl_storeStep_names {ids : List Nat} {dh : Option Nat}
    {acc : World × List String} {n : String}
    (hn : n ∈ (ids.foldl (storeStep dh) acc).2) :
    n ∈ acc.2 ∨ ∃ id info, lookupA acc.1.heap id = some info ∧
      info.name = n := by
  induction ids generalizing acc with
  | nil => exact Or.inl hn
  | cons id rest ih =>
      rw [List.foldl_cons] at hn
      rcases ih hn with h1 | h2
      · rw [storeStep_names_eq] at h1
        cases hh : lookupA acc.1.heap id with
        | none =>
            rw [hh] at h1
            exact Or.inl h1
        | some plugin =>
            rw [hh] at h1
            rcases mem_insertSet_iff.mp h1 with h | h
            · exact Or.inl h
            · exact Or.inr ⟨id, plugin, hh, h.symm⟩
      · rw [storeStep_heap] at h2
        exact Or.inr h2

theorem foldl_storeStep_names_in_plugins {ids : List Nat} {dh : Option Nat}
    {acc : World × List String}
    (hacc : ∀ m ∈ acc.2, (lookupA acc.1.loader.plugins m).isSome) :
    ∀ n ∈ (ids.foldl (storeStep dh) acc).2,
      (lookupA (ids.foldl (storeStep dh) acc).1.loader.plugins n).isSome := by
  induction ids generalizing acc with
  | nil => exact hacc
  | cons id rest ih =>
      rw [List.foldl_cons]
      refine ih ?_
      intro m hm
      rw [storeStep_plugins_eq]
      rw [storeStep_names_eq] at hm
      cases hh : lookupA acc.1.heap id with
      | none =>
          rw [hh] at hm
          dsimp only at hm ⊢
          exact hacc m hm
      | some plugin =>
          rw [hh] at hm
          dsimp only at hm ⊢
          rcases mem_insertSet_iff.mp hm with h | h
          · obtain ⟨v, hv⟩ := Option.isSome_iff_exists.mp (hacc m h)
            rw [lookupA_insertNewA_some _ _ hv]
            rfl
          · subst h
            exact lookupA_insertNewA_self_isSome _ _ _

theorem StorePlugins_names_in_plugins (w : World) (ids : List Nat)
    (dh : Option Nat) :
    ∀ n ∈ (StorePlugins w ids dh).2,
      (lookupA (StorePlugins w ids dh).1.loader.plugins n).isSome := by
  unfold StorePlugins
  dsimp only
  exact foldl_storeStep_names_in_plugins (fun m hm => absurd hm (by simp))

theorem StorePlugins_names_chars {w : World} {ids : List Nat}
    {dh : Option Nat} {n : String} (hn : n ∈ (StorePlugins w ids dh).2) :
    ∃ id info, lookupA w.heap id = some info ∧ info.name = n := by
  unfold StorePlugins at hn
  dsimp only at hn
  rcases foldl_storeStep_names hn with h | h
  · cases h
  · exact h

theorem StorePlugins_plugins_isSome {w : World} {ids : List Nat}
    {dh : Option Nat} {n : String}
    (h : (lookupA w.loader.plugins n).isSome) :
    (lookupA (StorePlugins w ids dh).1.loader.plugins n).isSome := by
  unfold StorePlugins
  dsimp only
  obtain ⟨v, hv⟩ := Option.isSome_iff_exists.mp h
  rw [@foldl_storeStep_plugins_some ids dh (w, ([] : List String)) n v hv]
  rfl

theorem foldl_checkNativeStep_mem {w : World} {lib : Library}
    {entries : List (String × Nat)} {acc : List String} {n : String}
    (hn : n ∈ entries.foldl (checkNativeStep w lib) acc) :
    n ∈ acc ∨ ∃ e ∈ entries, ∃ info, lookupA w.heap e.2 = some info ∧
      info.name = n := by
  induction entries generalizing acc with
  | nil => exact Or.inl hn
  | cons e rest ih =>
      rw [List.foldl_cons] at hn
      rcases ih hn with h1 | h2
      · revert h1
        unfold checkNativeStep
        cases hh : lookupA w.heap e.2 with
        | none => exact Or.inl
        | some info =>
            dsimp only
            split
            · intro h1
              rcases mem_insertSet_iff.mp h1 with h | h
              · exact Or.inl h
              · exact Or.inr ⟨e, List.mem_cons_self _ _, info, hh, h.symm⟩
            · exact Or.inl
      · obtain ⟨e', he', rest'⟩ := h2
        exact Or.inr ⟨e', List.mem_cons_of_mem _ he', rest'⟩

theorem mem_checkNative {w : World} {lib : Library} {n : String}
    (hn : n ∈ CheckForNativePluginSymbols w lib) :
    ∃ e ∈ w.nativeReg, ∃ info, lookupA w.heap e.2 = some info ∧
      info.name = n := by
  unfold CheckForNativePluginSymbols at hn
  rcases foldl_checkNativeStep_mem hn with h | h
  · cases h
  · exact h

theorem instantiate_isSome {l : LoaderSt} {n : String} (hne : n ≠ "")
    (hp : (lookupA l.plugins n).isSome) : (Instantiate l n).isSome := by
  obtain ⟨v, hv⟩ := Option.isSome_iff_exists.mp hp
  unfold Instantiate
  dsimp only
  rw [lookupPlugin_self hp, if_neg hne, hv]
  rfl

/-- `LoadLib` on a path that resolves, decomposed into its phases. -/
theorem LoadLib_eq_some {c : Ctx} {w : World} {p : String} {lib : Library}
    (hlib : lookupA w.libs p = some lib) :
    LoadLib c w p =
      (let wA := (CreateDlHandle c { w with registrationOkay := true } p).1
       let q := ReceivePlugins c wA lib
       let r := StorePlugins q.1 q.2 (some lib.handle)
       let w2 := { r.1 with dynamicReg := ([] : Registry) }
       (dropShare w2 (some lib.handle) none,
        if r.2 = [] then CheckForNativePluginSymbols w2 lib else r.2)) := by
  have hlib' : lookupA ({ w with registrationOkay := true } : World).libs p
      = some lib := hlib
  unfold LoadLib
  dsimp only
  rw [CreateDlHandle_snd hlib', CreateDlHandle_libs, hlib']

/-- C1 counterexample: a native plugin "P" is registered before the loader
is built; the dynamic library at "q" provides a plugin with the same
symbol, so storing it re-points the handle slot of "P";
`ForgetLibraryOfPlugin "P"` then erases the name "P" from the loader's
tables; finally `LoadLib "r"` on a library that merely exports the
native type-info symbol returns a set containing "P" even though "P" no
longer resolves: `lookup` returns the empty string and `instantiate`
returns the empty handle. -/
theorem C1_counterexample :
    exN4.2 = ["P"] ∧
    LookupPlugin exN4.1.loader "P" = "" ∧
    Instantiate exN4.1.loader "P" = none := by decide

/-- C1 amended: after `load_library` returns the set `S`, every `n ∈ S`
resolves to itself and instantiates to a non-empty handle, under the
invariants the loader is designed to maintain: the demangler yields
non-empty names, every heap descriptor has a non-empty name, and the
loader still holds a plugins entry under every native plugin's name (the
constructor establishes this; only the collision-and-forget sequence of
the counterexample can break it). -/
theorem C1_load_resolves_amended (c : Ctx) (w : World) (p : String)
    (hdem : ∀ s, c.dem s ≠ "")
    (hheap : NN w.heap)
    (hnat : ∀ e ∈ w.nativeReg, ∃ info,
      lookupA w.heap (Prod.snd e) = some info ∧
      (lookupA w.loader.plugins info.name).isSome) :
    ∀ n ∈ (LoadLib c w p).2,
      LookupPlugin (LoadLib c w p).1.loader n = n ∧
      (Instantiate (LoadLib c w p).1.loader n).isSome := by
  intro n hn
  cases hlib : lookupA w.libs p with
  | none =>
      exfalso
      unfold LoadLib CreateDlHandle at hn
      simp [hlib] at hn
  | some lib =>
      rw [LoadLib_eq_some hlib] at hn ⊢
      dsimp only at hn ⊢
      set w0 : World := { w with registrationOkay := true } with hw0
      set wA : World := (CreateDlHandle c w0 p).1 with hwA
      set q : World × List Nat := ReceivePlugins c wA lib with hq2
      set r : World × List String := StorePlugins q.1 q.2 (some lib.handle)
        with hr2
      set w2 : World := { r.1 with dynamicReg := ([] : Registry) } with hw2
      have hfloader : (dropShare w2 (some lib.handle) none).loader
          = r.1.loader := by
        rw [dropShare_loader, hw2]
      have hrheap : r.1.heap = q.1.heap := by
        rw [hr2]
        exact StorePlugins_heap _ _ _
      have hw2heap : w2.heap = q.1.heap := by
        rw [hw2]
        exact hrheap
      have hqheapNN : NN q.1.heap := by
        rw [hq2]
        refine ReceivePlugins_NN hdem ?_
        rw [hwA]
        exact CreateDlHandle_NN hdem hheap
      have hqloader : q.1.loader = wA.loader := by
        rw [hq2]
        exact ReceivePlugins_loader _ _ _
      have hwAplugins : wA.loader.plugins = w.loader.plugins := by
        rw [hwA]
        exact CreateDlHandle_plugins c w0 p
      have hqnat : q.1.nativeReg = w.nativeReg := by
        rw [hq2, ReceivePlugins_nativeReg, hwA]
        exact CreateDlHandle_nativeReg c w0 p
      have hrnat : r.1.nativeReg = w.nativeReg := by
        rw [hr2, StorePlugins_nativeReg]
        exact hqnat
      have hw2nat : w2.nativeReg = w.nativeReg := by
        rw [hw2]
        exact hrnat
      have hqHeapExt : HeapExt w.heap q.1.heap := by
        rw [hq2]
        refine HeapExt.trans ?_ (ReceivePlugins_HeapExt c wA lib)
        rw [hwA]
        exact CreateDlHandle_HeapExt c w0 p
      by_cases hrempty : r.2 = []
      · rw [if_pos hrempty] at hn
        obtain ⟨e, he, info, hinfo, hname⟩ := mem_checkNative hn
        rw [hw2nat] at he
        rw [hw2heap] at hinfo
        obtain ⟨info0, hinfo0, hpres⟩ := hnat e he
        obtain ⟨info1, hinfo1, hname1⟩ := hqHeapExt _ _ hinfo0
        have hii : info = info1 := by
          injection (hinfo.symm.trans hinfo1)
        have hn0 : n = info0.name := by
          rw [← hname, hii, hname1]
        have hfinal : (lookupA r.1.loader.plugins n).isSome := by
          rw [hr2]
          refine StorePlugins_plugins_isSome ?_
          rw [hn0, hqloader, hwAplugins]
          exact hpres
        have hnne : n ≠ "" := by
          rw [hn0]
          exact hheap _ _ hinfo0
        refine ⟨?_, ?_⟩
        · rw [hfloader]
          exact lookupPlugin_self hfinal
        · rw [hfloader]
          exact instantiate_isSome hnne hfinal
      · rw [if_neg hrempty] at hn
        have hn' : n ∈ (StorePlugins q.1 q.2 (some lib.handle)).2 := by
          rw [← hr2]
          exact hn
        obtain ⟨id, info, hinfo, hname⟩ := StorePlugins_names_chars hn'
        have hnne : n ≠ "" := by
          rw [← hname]
          exact hqheapNN _ _ hinfo
        have hfinal : (lookupA r.1.loader.plugins n).isSome := by
          rw [hr2]
          exact StorePlugins_names_in_plugins q.1 q.2 (some lib.handle) n hn'
        refine ⟨?_, ?_⟩
        · rw [hfloader]
          exact lookupPlugin_self hfinal
        · rw [hfloader]
          exact instantiate_isSome hnne hfinal

theorem C1_load_resolves_amended_witness :
    LookupPlugin (LoadLib exCtxD exDW "q").1.loader "N" = "N" ∧
    (Instantiate (LoadLib exCtxD exDW "q").1.loader "N").isSome :=
  C1_load_resolves_amended exCtxD exDW "q"
    (fun s => by
      show ("N" : String) ≠ ""
      decide)
    (fun id info h => by
      rw [show exDW.heap = [] from rfl] at h
      simp at h)
    (fun e he => by
      rw [show exDW.nativeReg = [] from rfl] at he
      simp at he)
    "N" (by decide)

/-! ## Claim C2: loading the same library twice -/

theorem initStep_osRef (c : Ctx) (h : Nat) (w : World) (rc : RegCall) :
    (initStep c h w rc).osRef = w.osRef := by
  unfold initStep
  dsimp only
  split <;> rfl

theorem runInits_osRef (c : Ctx) (w : World) (lib : Library) :
    (runInits c w lib).osRef = w.osRef := by
  unfold runInits
  generalize lib.regCalls = rcs
  induction rcs generalizing w with
  | nil => rfl
  | cons rc rest ih => rw [List.foldl_cons, ih, initStep_osRef]

theorem runInits_archive (c : Ctx) (w : World) (lib : Library) :
    (runInits c w lib).archive = w.archive := by
  unfold runInits
  generalize lib.regCalls = rcs
  induction rcs generalizing w with
  | nil => rfl
  | cons rc rest ih => rw [List.foldl_cons, ih, initStep_archive]


theorem lookupA_isSome_append {κ α : Type} [DecidableEq κ]
    {l : List (κ × α)} {q : κ} (t : List (κ × α))
    (h : (lookupA l q).isSome) : (lookupA (l ++ t) q).isSome := by
  obtain ⟨v, hv⟩ := Option.isSome_iff_exists.mp h
  rw [lookupA_append_some _ hv]
  rfl

theorem ne_nil_of_lookupA {κ α : Type} [DecidableEq κ]
    {l : List (κ × α)} {k : κ} {v : α} (h : lookupA l k = some v) :
    l ≠ [] := by
  intro he
  subst he
  simp at h

/-- The four behaviours of the registration hook. -/
theorem hook_cases (c : Ctx) (st : HookSt) (info : Info) (isz ial : Nat) :
    ((isz ≠ c.infoSize ∨ ial ≠ c.infoAlign) ∧
      IgnitionPluginHook_v1 c st info isz ial
        = ({ st with registrationOkay := false }, none)) ∨
    (∃ ni, IgnitionPluginHook_v1 c st info isz ial
        = ({ st with reg := st.reg ++ [(info.symbol, st.nextId)],
                     heap := st.heap ++ [(st.nextId, ni)],
                     nextId := st.nextId + 1 }, some st.nextId)) ∨
    (∃ id, lookupA st.reg info.symbol = some id ∧ lookupA st.heap id = none ∧
      IgnitionPluginHook_v1 c st info isz ial = (st, some id)) ∨
    (∃ id e e2, lookupA st.reg info.symbol = some id ∧
      lookupA st.heap id = some e ∧
      IgnitionPluginHook_v1 c st info isz ial
        = ({ st with heap := setA st.heap id e2 }, some id)) := by
  unfold IgnitionPluginHook_v1
  split
  · rename_i hcond
    exact Or.inl ⟨hcond, rfl⟩
  · cases hr : lookupA st.reg info.symbol with
    | none => exact Or.inr (Or.inl ⟨_, rfl⟩)
    | some id0 =>
        dsimp only
        cases hh : lookupA st.heap id0 with
        | none => exact Or.inr (Or.inr (Or.inl ⟨id0, rfl, hh, rfl⟩))
        | some e => exact Or.inr (Or.inr (Or.inr ⟨id0, e, _, rfl, hh, rfl⟩))

/-- One static initializer preserves the dynamic-registry invariant. -/
theorem initStep_RegInv {c : Ctx} {h : Nat} {w : World} {rc : RegCall}
    (hinv : RegInv w h) : RegInv (initStep c h w rc) h := by
  rcases hook_cases c
      { reg := w.dynamicReg, heap := w.heap, nextId := w.nextId,
        registrationOkay := w.registrationOkay } rc.info rc.size rc.align
    with ⟨hcond, hc⟩ | ⟨ni, hc⟩ | ⟨id0, hr, hh, hc⟩ | ⟨id0, e, e2, hr, hh, hc⟩ <;>
    (unfold initStep; dsimp only; rw [hc]; dsimp only)
  · exact hinv
  · intro id hid
    rw [List.map_append] at hid
    rcases List.mem_append.mp hid with hold | hnew
    · obtain ⟨hres, hheld⟩ := hinv id hold
      refine ⟨lookupA_isSome_append _ hres, ?_⟩
      rw [lookupA_setA_self, Option.getD_some]
      exact List.mem_append_left _ hheld
    · simp only [List.map_cons, List.map_nil, List.mem_singleton] at hnew
      subst hnew
      constructor
      · cases hq : lookupA w.heap w.nextId with
        | none =>
            rw [lookupA_append_none _ hq]
            simp
        | some e =>
            rw [lookupA_append_some _ hq]
            rfl
      · rw [lookupA_setA_self, Option.getD_some]
        exact List.mem_append_right _ (List.mem_singleton.mpr rfl)
  · intro id hid
    obtain ⟨hres, hheld⟩ := hinv id hid
    refine ⟨hres, ?_⟩
    rw [lookupA_setA_self, Option.getD_some]
    exact List.mem_append_left _ hheld
  · intro id hid
    obtain ⟨hres, hheld⟩ := hinv id hid
    constructor
    · by_cases hq : id0 = id
      · subst hq
        rw [lookupA_setA_self]
        rfl
      · rw [lookupA_setA_ne _ _ hq]
        exact hres
    · rw [lookupA_setA_self, Option.getD_some]
      exact List.mem_append_left _ hheld

theorem runInits_RegInv {c : Ctx} {w : World} {lib : Library}
    (hinv : RegInv w lib.handle) : RegInv (runInits c w lib) lib.handle := by
  unfold runInits
  generalize lib.regCalls = rcs
  induction rcs generalizing w with
  | nil => exact hinv
  | cons rc rest ih =>
      rw [List.foldl_cons]
      exact ih (initStep_RegInv hinv)

/-- A nonempty dynamic registry stays nonempty through an initializer. -/
theorem initStep_reg_nonempty {c : Ctx} {h : Nat} {w : World} {rc : RegCall}
    (hne : w.dynamicReg ≠ []) : (initStep c h w rc).dynamicReg ≠ [] := by
  rcases hook_cases c
      { reg := w.dynamicReg, heap := w.heap, nextId := w.nextId,
        registrationOkay := w.registrationOkay } rc.info rc.size rc.align
    with ⟨hcond, hc⟩ | ⟨ni, hc⟩ | ⟨id0, hr, hh, hc⟩ | ⟨id0, e, e2, hr, hh, hc⟩ <;>
    (unfold initStep; dsimp only; rw [hc]; dsimp only)
  · exact hne
  · simp
  · exact hne
  · exact hne

theorem foldl_initStep_reg_nonempty {c : Ctx} {h : Nat} {rcs : List RegCall}
    {w : World} (hne : w.dynamicReg ≠ []) :
    (rcs.foldl (initStep c h) w).dynamicReg ≠ [] := by
  induction rcs generalizing w with
  | nil => exact hne
  | cons rc rest ih =>
      rw [List.foldl_cons]
      exact ih (initStep_reg_nonempty hne)

/-- An initializer whose descriptor passes the ABI check leaves the
dynamic registry nonempty. -/
theorem initStep_reg_ok {c : Ctx} {h : Nat} {w : World} {rc : RegCall}
    (hsz : rc.size = c.infoSize) (hal : rc.align = c.infoAlign) :
    (initStep c h w rc).dynamicReg ≠ [] := by
  rcases hook_cases c
      { reg := w.dynamicReg, heap := w.heap, nextId := w.nextId,
        registrationOkay := w.registrationOkay } rc.info rc.size rc.align
    with ⟨hcond, hc⟩ | ⟨ni, hc⟩ | ⟨id0, hr, hh, hc⟩ | ⟨id0, e, e2, hr, hh, hc⟩ <;>
    (unfold initStep; dsimp only; rw [hc]; dsimp only)
  · exact absurd hcond (by simp [hsz, hal])
  · simp
  · exact ne_nil_of_lookupA hr
  · exact ne_nil_of_lookupA hr

theorem runInits_reg_ok {c : Ctx} {w : World} {lib : Library}
    (hok : ∃ rc ∈ lib.regCalls, rc.size = c.infoSize ∧ rc.align = c.infoAlign) :
    (runInits c w lib).dynamicReg ≠ [] := by
  unfold runInits
  obtain ⟨rc, hmem, hsz, hal⟩ := hok
  revert hmem
  generalize lib.regCalls = rcs
  intro hmem
  induction rcs generalizing w with
  | nil => cases hmem
  | cons rc0 rest ih =>
      rw [List.foldl_cons]
      rcases List.mem_cons.mp hmem with rfl | hmem'
      · exact foldl_initStep_reg_nonempty (initStep_reg_ok hsz hal)
      · exact ih hmem'

theorem mem_setA {κ α : Type} [DecidableEq κ] {l : List (κ × α)}
    {k : κ} {v : α} {e : κ × α} (h : e ∈ setA l k v) :
    e ∈ l ∨ e = (k, v) := by
  induction l with
  | nil =>
      simp [setA] at h
      exact Or.inr h
  | cons e0 rest ih =>
      obtain ⟨k0, v0⟩ := e0
      by_cases hk : k0 = k
      · subst hk
        simp only [setA, if_pos rfl] at h
        rcases List.mem_cons.mp h with h1 | h2
        · exact Or.inr h1
        · exact Or.inl (List.mem_cons_of_mem _ h2)
      · simp only [setA, if_neg hk] at h
        rcases List.mem_cons.mp h with h1 | h2
        · exact Or.inl (h1 ▸ List.mem_cons_self _ _)
        · rcases ih h2 with h3 | h3
          · exact Or.inl (List.mem_cons_of_mem _ h3)
          · exact Or.inr h3

theorem aliveShare_of_lookup {l : LoaderSt} {n : String} {h : Nat}
    (hl : lookupA l.pluginToDlHandlePtrs n = some (some h)) :
    aliveShare l h = true := by
  unfold aliveShare
  rw [List.any_eq_true]
  exact ⟨(n, some h), lookupA_mem_pair hl, by simp⟩

theorem aliveShare_false_of_none {l : LoaderSt} {h : Nat}
    (hv : ∀ e ∈ l.pluginToDlHandlePtrs, e.2 = (none : Option Nat)) :
    aliveShare l h = false := by
  unfold aliveShare
  rw [List.any_eq_false]
  intro e he
  rw [hv e he]
  simp

theorem storeStep_dhtp (dh : Option Nat) (acc : World × List String)
    (id : Nat) :
    (storeStep dh acc id).1.loader.dlHandleToPluginMap
      = acc.1.loader.dlHandleToPluginMap := by
  unfold storeStep
  split
  · rfl
  · dsimp only
    split
    · split <;> simp
    · rfl

theorem foldl_storeStep_dhtp (ids : List Nat) (dh : Option Nat)
    (acc : World × List String) :
    (ids.foldl (storeStep dh) acc).1.loader.dlHandleToPluginMap
      = acc.1.loader.dlHandleToPluginMap := by
  induction ids generalizing acc with
  | nil => rfl
  | cons id rest ih => rw [List.foldl_cons, ih, storeStep_dhtp]

theorem storeStep_aliases_eq (dh : Option Nat) (acc : World × List String)
    (id : Nat) :
    (storeStep dh acc id).1.loader.aliases =
      (match lookupA acc.1.heap id with
       | none => acc.1.loader.aliases
       | some plugin =>
           plugin.aliases.foldl (addAliasFor plugin.name)
             acc.1.loader.aliases) := by
  unfold storeStep
  cases hh : lookupA acc.1.heap id with
  | none => rfl
  | some plugin =>
      dsimp only
      split
      · split <;> simp
      · rfl

/-- One `StorePlugins` iteration under the share invariant releases no
foreign library share: the counters, the retained handles and the
archive are untouched, and the invariant is maintained. -/
theorem storeStep_nodrop {dh : Option Nat} {acc : World × List String}
    {id : Nat} (hv : PVals acc.1.loader dh) :
    (storeStep dh acc id).1.osRef = acc.1.osRef ∧
    (storeStep dh acc id).1.libHeld = acc.1.libHeld ∧
    (storeStep dh acc id).1.archive = acc.1.archive ∧
    PVals (storeStep dh acc id).1.loader dh := by
  unfold storeStep
  cases hh : lookupA acc.1.heap id with
  | none => exact ⟨rfl, rfl, rfl, hv⟩
  | some plugin =>
      dsimp only
      have hvnew : PVals
          { acc.1.loader with
            aliases := plugin.aliases.foldl (addAliasFor plugin.name)
              acc.1.loader.aliases,
            plugins := insertNewA acc.1.loader.plugins plugin.name id,
            pluginToDlHandlePtrs :=
              setA acc.1.loader.pluginToDlHandlePtrs plugin.name dh } dh := by
        intro e he
        rcases mem_setA he with h1 | h1
        · exact hv e h1
        · subst h1
          exact Or.inr rfl
      cases ho : lookupA acc.1.loader.pluginToDlHandlePtrs plugin.name with
      | none => exact ⟨rfl, rfl, rfl, hvnew⟩
      | some oldH =>
          dsimp only
          rcases hv _ (lookupA_mem_pair ho) with h1 | h1 <;>
            dsimp only at h1 <;> subst h1
          · by_cases hdh : (none : Option Nat) = dh
            · rw [if_pos hdh]
              exact ⟨rfl, rfl, rfl, hvnew⟩
            · rw [if_neg hdh]
              exact ⟨rfl, rfl, rfl, hvnew⟩
          · rw [if_pos rfl]
            exact ⟨rfl, rfl, rfl, hvnew⟩

theorem foldl_storeStep_nodrop {ids : List Nat} {dh : Option Nat}
    {acc : World × List String} (hv : PVals acc.1.loader dh) :
    (ids.foldl (storeStep dh) acc).1.osRef = acc.1.osRef ∧
    (ids.foldl (storeStep dh) acc).1.libHeld = acc.1.libHeld ∧
    (ids.foldl (storeStep dh) acc).1.archive = acc.1.archive ∧
    PVals (ids.foldl (storeStep dh) acc).1.loader dh := by
  induction ids generalizing acc with
  | nil => exact ⟨rfl, rfl, rfl, hv⟩
  | cons id rest ih =>
      rw [List.foldl_cons]
      obtain ⟨h1, h2, h3, h4⟩ := @storeStep_nodrop dh acc id hv
      obtain ⟨g1, g2, g3, g4⟩ := ih h4
      exact ⟨g1.trans h1, g2.trans h2, g3.trans h3, g4⟩

theorem storeStep_names_mono {dh : Option Nat} {acc : World × List String}
    {id : Nat} {n : String} (hn : n ∈ acc.2) : n ∈ (storeStep dh acc id).2 := by
  rw [storeStep_names_eq]
  cases lookupA acc.1.heap id with
  | none => exact hn
  | some plugin => exact mem_insertSet_of_mem _ hn

theorem foldl_storeStep_names_mono {ids : List Nat} {dh : Option Nat}
    {acc : World × List String} {n : String} (hn : n ∈ acc.2) :
    n ∈ (ids.foldl (storeStep dh) acc).2 := by
  induction ids generalizing acc with
  | nil => exact hn
  | cons id rest ih =>
      rw [List.foldl_cons]
      exact ih (storeStep_names_mono hn)

theorem foldl_storeStep_name_mem {ids : List Nat} {dh : Option Nat}
    {acc : World × List String} {id : Nat} {info : Info}
    (hmem : id ∈ ids) (hinfo : lookupA acc.1.heap id = some info) :
    info.name ∈ (ids.foldl (storeStep dh) acc).2 := by
  induction ids generalizing acc with
  | nil => cases hmem
  | cons id0 rest ih =>
      rw [List.foldl_cons]
      rcases List.mem_cons.mp hmem with rfl | hmem'
      · refine foldl_storeStep_names_mono ?_
        rw [storeStep_names_eq, hinfo]
        exact mem_insertSet_self _ _
      · refine ih hmem' ?_
        rw [storeStep_heap]
        exact hinfo


theorem setA_lookup_self {κ α : Type} [DecidableEq κ] {l : List (κ × α)}
    {k : κ} {v : α} (h : lookupA l k = some v) : setA l k v = l := by
  induction l with
  | nil => simp [lookupA] at h
  | cons e rest ih =>
      obtain ⟨k0, v0⟩ := e
      by_cases hk : k0 = k
      · subst hk
        simp only [lookupA, if_true, eq_self_iff_true, Option.some.injEq] at h
        subst h
        simp [setA]
      · simp only [lookupA, if_neg hk] at h
        simp [setA, hk, ih h]

theorem insertNewA_isSome {κ α : Type} [DecidableEq κ] {l : List (κ × α)}
    {k : κ} (v : α) (h : (lookupA l k).isSome) : insertNewA l k v = l := by
  obtain ⟨v0, hv0⟩ := Option.isSome_iff_exists.mp h
  unfold insertNewA
  rw [hv0]

theorem insertSet_mem {β : Type} [DecidableEq β] {l : List β} {x : β}
    (h : x ∈ l) : insertSet l x = l := by
  unfold insertSet
  rw [if_pos h]

theorem addAliasFor_establish (pn : String) (m : List (String × List String))
    (a : String) :
    ∃ s, lookupA (addAliasFor pn m a) a = some s ∧ pn ∈ s := by
  unfold addAliasFor
  exact ⟨_, lookupA_setA_self _ _ _, mem_insertSet_self _ _⟩

theorem addAliasFor_preserve {m : List (String × List String)}
    {a pn : String} (pn2 a2 : String)
    (h : ∃ s, lookupA m a = some s ∧ pn ∈ s) :
    ∃ s, lookupA (addAliasFor pn2 m a2) a = some s ∧ pn ∈ s := by
  obtain ⟨s, hs, hm⟩ := h
  unfold addAliasFor
  by_cases ha : a2 = a
  · subst ha
    refine ⟨_, lookupA_setA_self _ _ _, ?_⟩
    rw [hs, Option.getD_some]
    exact mem_insertSet_of_mem _ hm
  · rw [lookupA_setA_ne _ _ ha]
    exact ⟨s, hs, hm⟩

theorem foldl_addAliasFor_preserve {as : List String}
    {m : List (String × List String)} {a pn : String} (pn2 : String)
    (h : ∃ s, lookupA m a = some s ∧ pn ∈ s) :
    ∃ s, lookupA (as.foldl (addAliasFor pn2) m) a = some s ∧ pn ∈ s := by
  induction as generalizing m with
  | nil => exact h
  | cons a0 rest ih =>
      rw [List.foldl_cons]
      exact ih (addAliasFor_preserve pn2 a0 h)

theorem foldl_addAliasFor_establish {as : List String}
    {m : List (String × List String)} {a : String} (pn : String)
    (hmem : a ∈ as) :
    ∃ s, lookupA (as.foldl (addAliasFor pn) m) a = some s ∧ pn ∈ s := by
  induction as generalizing m with
  | nil => cases hmem
  | cons a0 rest ih =>
      rw [List.foldl_cons]
      rcases List.mem_cons.mp hmem with rfl | hmem2
      · exact foldl_addAliasFor_preserve pn (addAliasFor_establish pn m a)
      · exact ih hmem2

theorem addAliasFor_saturated {m : List (String × List String)}
    {a pn : String} (h : ∃ s, lookupA m a = some s ∧ pn ∈ s) :
    addAliasFor pn m a = m := by
  obtain ⟨s, hs, hm⟩ := h
  unfold addAliasFor
  rw [hs, Option.getD_some, insertSet_mem hm]
  exact setA_lookup_self hs

theorem foldl_addAliasFor_saturated {as : List String}
    {m : List (String × List String)} {pn : String}
    (h : ∀ a ∈ as, ∃ s, lookupA m a = some s ∧ pn ∈ s) :
    as.foldl (addAliasFor pn) m = m := by
  induction as with
  | nil => rfl
  | cons a0 rest ih =>
      rw [List.foldl_cons, addAliasFor_saturated (h a0 (List.mem_cons_self _ _))]
      exact ih fun a ha => h a (List.mem_cons_of_mem _ ha)

theorem storeStep_aliasHas_preserve {dh : Option Nat}
    {acc : World × List String} {id : Nat} {a pn : String}
    (h : ∃ s, lookupA acc.1.loader.aliases a = some s ∧ pn ∈ s) :
    ∃ s, lookupA (storeStep dh acc id).1.loader.aliases a = some s ∧ pn ∈ s := by
  rw [storeStep_aliases_eq]
  cases lookupA acc.1.heap id with
  | none => exact h
  | some plugin => exact foldl_addAliasFor_preserve _ h

theorem storeStep_aliasHas_establish {dh : Option Nat}
    {acc : World × List String} {id : Nat} {a : String} {info : Info}
    (hinfo : lookupA acc.1.heap id = some info) (ha : a ∈ info.aliases) :
    ∃ s, lookupA (storeStep dh acc id).1.loader.aliases a = some s ∧
      info.name ∈ s := by
  rw [storeStep_aliases_eq, hinfo]
  exact foldl_addAliasFor_establish _ ha

theorem foldl_storeStep_aliasHas_preserve {ids : List Nat} {dh : Option Nat}
    {acc : World × List String} {a pn : String}
    (h : ∃ s, lookupA acc.1.loader.aliases a = some s ∧ pn ∈ s) :
    ∃ s, lookupA (ids.foldl (storeStep dh) acc).1.loader.aliases a = some s ∧
      pn ∈ s := by
  induction ids generalizing acc with
  | nil => exact h
  | cons id0 rest ih =>
      rw [List.foldl_cons]
      exact ih (storeStep_aliasHas_preserve h)

theorem foldl_storeStep_aliasHas {ids : List Nat} {dh : Option Nat}
    {acc : World × List String} {id : Nat} {a : String} {info : Info}
    (hmem : id ∈ ids) (hinfo : lookupA acc.1.heap id = some info)
    (ha : a ∈ info.aliases) :
    ∃ s, lookupA (ids.foldl (storeStep dh) acc).1.loader.aliases a = some s ∧
      info.name ∈ s := by
  induction ids generalizing acc with
  | nil => cases hmem
  | cons id0 rest ih =>
      rw [List.foldl_cons]
      rcases List.mem_cons.mp hmem with rfl | hmem2
      · exact foldl_storeStep_aliasHas_preserve
          (storeStep_aliasHas_establish hinfo ha)
      · refine ih hmem2 ?_
        rw [storeStep_heap]
        exact hinfo

theorem storeStep_dlmap (dh : Option Nat) (acc : World × List String)
    (id : Nat) :
    (storeStep dh acc id).1.loader.dlHandlePtrMap
      = acc.1.loader.dlHandlePtrMap := by
  unfold storeStep
  split
  · rfl
  · dsimp only
    split
    · split <;> simp
    · rfl

theorem foldl_storeStep_dlmap (ids : List Nat) (dh : Option Nat)
    (acc : World × List String) :
    (ids.foldl (storeStep dh) acc).1.loader.dlHandlePtrMap
      = acc.1.loader.dlHandlePtrMap := by
  induction ids generalizing acc with
  | nil => rfl
  | cons id rest ih => rw [List.foldl_cons, ih, storeStep_dlmap]

/-- A `StorePlugins` iteration on a descriptor the loader tables already
fully record (name in `plugins`, handle share already stored, every alias
set already holding the name) changes nothing but the collected name
list. -/
theorem storeStep_saturated {dh : Option Nat} {acc : World × List String}
    {id : Nat} {info : Info}
    (hinfo : lookupA acc.1.heap id = some info)
    (hplug : (lookupA acc.1.loader.plugins info.name).isSome)
    (hpt : lookupA acc.1.loader.pluginToDlHandlePtrs info.name = some dh)
    (hal : ∀ a ∈ info.aliases,
      ∃ s, lookupA acc.1.loader.aliases a = some s ∧ info.name ∈ s) :
    storeStep dh acc id = (acc.1, insertSet acc.2 info.name) := by
  unfold storeStep
  rw [hinfo]
  dsimp only
  rw [foldl_addAliasFor_saturated hal, insertNewA_isSome _ hplug,
      setA_lookup_self hpt, hpt]
  dsimp only
  rw [if_pos rfl]

theorem foldl_storeStep_saturated {ids : List Nat} {dh : Option Nat}
    {w : World} {ns : List String}
    (h : ∀ id ∈ ids, ∃ info, lookupA w.heap id = some info ∧
      (lookupA w.loader.plugins info.name).isSome ∧
      lookupA w.loader.pluginToDlHandlePtrs info.name = some dh ∧
      ∀ a ∈ info.aliases,
        ∃ s, lookupA w.loader.aliases a = some s ∧ info.name ∈ s) :
    (ids.foldl (storeStep dh) (w, ns)).1 = w := by
  induction ids generalizing ns with
  | nil => rfl
  | cons id rest ih =>
      rw [List.foldl_cons]
      obtain ⟨info, hinfo, hplug, hpt, hal⟩ := h id (List.mem_cons_self _ _)
      rw [storeStep_saturated hinfo hplug hpt hal]
      exact ih fun id2 h2 => h id2 (List.mem_cons_of_mem _ h2)

/-- The name list a `StorePlugins` fold collects depends only on the heap
and the incoming list, not on the handle being stored. -/
theorem foldl_storeStep_snd_eq {ids : List Nat} {dh1 dh2 : Option Nat}
    {acc1 acc2 : World × List String}
    (hh : acc1.1.heap = acc2.1.heap) (hs : acc1.2 = acc2.2) :
    (ids.foldl (storeStep dh1) acc1).2 = (ids.foldl (storeStep dh2) acc2).2 := by
  induction ids generalizing acc1 acc2 with
  | nil => exact hs
  | cons id rest ih =>
      rw [List.foldl_cons, List.foldl_cons]
      refine ih ?_ ?_
      · rw [storeStep_heap, storeStep_heap]
        exact hh
      · rw [storeStep_names_eq, storeStep_names_eq, hh, hs]

theorem mem_lookupA_getD {κ α : Type} [DecidableEq κ] {m : List (κ × List α)}
    {k : κ} {x : α} (h : x ∈ (lookupA m k).getD []) :
    ∃ s, lookupA m k = some s ∧ x ∈ s := by
  cases hl : lookupA m k with
  | none =>
      rw [hl] at h
      cases h
  | some s =>
      rw [hl] at h
      exact ⟨s, rfl, h⟩

theorem aliveInfo_of_libHeld {w : World} {h id : Nat} {held : List Nat}
    (hl : lookupA w.libHeld h = some held) (hm : id ∈ held) :
    aliveInfo w id = true := by
  unfold aliveInfo
  have hx : w.libHeld.any (fun e => decide (id ∈ e.2)) = true := by
    rw [List.any_eq_true]
    exact ⟨(h, held), lookupA_mem_pair hl, by simp [hm]⟩
  rw [hx]
  simp

theorem dropShare_alive {w : World} {h : Nat} (t : Option Nat)
    (ha : aliveShare w.loader h = true) : dropShare w (some h) t = w := by
  unfold dropShare
  dsimp only
  rw [if_pos (Or.inl ha)]

theorem World_dyn_eta {w : World} (h : w.dynamicReg = []) :
    { w with dynamicReg := ([] : Registry) } = w := by
  cases w
  simp only at h
  rw [← h]

/-- Archiving a fresh, nonempty descriptor list makes it retrievable. -/
theorem ArchivePluginInfo_lookup_fresh {a : Archive} {ids : List Nat} {h : Nat}
    (hne : ids ≠ []) (h0 : lookupA a.dlHandleToInfo h = none) :
    lookupA (ArchivePluginInfo a ids h).dlHandleToInfo h = some ids := by
  unfold ArchivePluginInfo
  rw [if_neg hne]
  dsimp only
  rw [lookupA_setA_self, h0]
  rfl

/-- `ReceivePlugins` on an archive miss with no deprecated hook: the
dynamic registry is drained into the archive. -/
theorem ReceivePlugins_miss_none {c : Ctx} {w : World} {lib : Library}
    (harch : lookupA w.archive.dlHandleToInfo lib.handle = none)
    (hleg : lib.legacy = none) :
    ReceivePlugins c w lib =
      ({ w with archive :=
          ArchivePluginInfo w.archive (w.dynamicReg.map Prod.snd) lib.handle },
       w.dynamicReg.map Prod.snd) := by
  unfold ReceivePlugins
  rw [harch]
  dsimp only
  rw [hleg]
  dsimp only
  simp only [List.nil_append]

/-- `ReceivePlugins` on an archive hit whose weak references are all still
alive returns the archived list unchanged. -/
theorem ReceivePlugins_hit {c : Ctx} {w : World} {lib : Library}
    {ids : List Nat}
    (hhit : lookupA w.archive.dlHandleToInfo lib.handle = some ids)
    (hall : ∀ id ∈ ids, aliveInfo w id = true) :
    ReceivePlugins c w lib = (w, ids) := by
  unfold ReceivePlugins
  rw [hhit]
  dsimp only
  rw [List.filter_eq_self.mpr hall]

/-- `StorePlugins` over descriptors the loader already fully records is a
no-op on the world. -/
theorem StorePlugins_saturated {w : World} {ids : List Nat} {dh : Option Nat}
    (hsat : ∀ id ∈ ids, ∃ info, lookupA w.heap id = some info ∧
      (lookupA w.loader.plugins info.name).isSome ∧
      lookupA w.loader.pluginToDlHandlePtrs info.name = some dh ∧
      ∀ a ∈ info.aliases,
        ∃ s, lookupA w.loader.aliases a = some s ∧ info.name ∈ s)
    (hdh : lookupA w.loader.dlHandleToPluginMap dh
      = some ((ids.foldl (storeStep dh) (w, ([] : List String))).2)) :
    StorePlugins w ids dh
      = (w, (ids.foldl (storeStep dh) (w, ([] : List String))).2) := by
  unfold StorePlugins
  dsimp only
  rw [foldl_storeStep_saturated hsat, setA_lookup_self hdh]

/-- `CreateDlHandle` on a library not currently loaded whose handle this
loader has never cached: the count goes to one, the static initializers
run, and the handle is cached. -/
theorem CreateDlHandle_fresh {c : Ctx} {w : World} {p : String} {lib : Library}
    (hlib : lookupA w.libs p = some lib)
    (hosr : osRefGet w lib.handle = 0)
    (hmap : lib.handle ∉ w.loader.dlHandlePtrMap) :
    CreateDlHandle c w p =
      (let w1 := runInits c { w with osRef := setA w.osRef lib.handle 1 } lib
       ({ w1 with loader := { w.loader with dlHandlePtrMap :=
           w.loader.dlHandlePtrMap ++ [lib.handle] } }, some lib.handle)) := by
  unfold CreateDlHandle
  rw [hlib]
  dsimp only
  unfold dlopenW
  dsimp only
  rw [hosr]
  rw [if_neg (Nat.lt_irrefl 0)]
  rw [runInits_loader]
  dsimp only
  rw [if_neg hmap]

/-- `CreateDlHandle` on a library this loader already holds a live share
of at count one: the duplicate `dlopen` is balanced by an immediate
`dlclose` and the state comes back unchanged. -/
theorem CreateDlHandle_reuse {c : Ctx} {w : World} {p : String} {lib : Library}
    (hlib : lookupA w.libs p = some lib)
    (hosr : lookupA w.osRef lib.handle = some 1)
    (hmem : lib.handle ∈ w.loader.dlHandlePtrMap)
    (halive : aliveShare w.loader lib.handle = true) :
    CreateDlHandle c w p = (w, some lib.handle) := by
  unfold CreateDlHandle
  rw [hlib]
  dsimp only
  unfold dlopenW osRefGet
  dsimp only
  rw [hosr]
  simp only [Option.getD_some]
  rw [if_pos (by decide : (0:Nat) < 1)]
  rw [if_pos hmem]
  rw [if_pos halive]
  unfold dlcloseW osRefGet
  dsimp only
  rw [lookupA_setA_self]
  simp only [Option.getD_some]
  rw [if_neg (by decide : ¬((1:Nat) + 1 - 1 = 0))]
  rw [setA_setA_self]
  have h11 : (1:Nat) + 1 - 1 = 1 := rfl
  rw [h11, setA_lookup_self hosr]

/-- C2: calling `LoadLib` twice on the same path returns the same name
list both times; the second call leaves the loader's tables (plugins,
aliases and both handle maps) and the operating-system reference count
exactly as the first call left them, the duplicate `dlopen` being
balanced by an immediate `dlclose` because a still-alive share exists.
Hypotheses describe a first load of a fresh library: the path resolves,
the library is not currently loaded, archived or cached, it has no
deprecated hook and at least one ABI-correct registration call, the
dynamic registry starts empty, and every stored library-handle share is
the null handle of a native plugin. -/
theorem C2_load_twice (c : Ctx) (w : World) (p : String) (lib : Library)
    (hlib : lookupA w.libs p = some lib)
    (hdyn : w.dynamicReg = [])
    (hpv : ∀ e ∈ w.loader.pluginToDlHandlePtrs, e.2 = (none : Option Nat))
    (hosr : osRefGet w lib.handle = 0)
    (harch : lookupA w.archive.dlHandleToInfo lib.handle = none)
    (hmap : lib.handle ∉ w.loader.dlHandlePtrMap)
    (hleg : lib.legacy = none)
    (hreg : ∃ rc ∈ lib.regCalls,
      rc.size = c.infoSize ∧ rc.align = c.infoAlign) :
    (LoadLib c (LoadLib c w p).1 p).2 = (LoadLib c w p).2 ∧
    (LoadLib c (LoadLib c w p).1 p).1.loader = (LoadLib c w p).1.loader ∧
    (LoadLib c (LoadLib c w p).1 p).1.osRef = (LoadLib c w p).1.osRef := by
  set w0 : World := { w with registrationOkay := true } with hw0
  set wIn : World := { w0 with osRef := setA w0.osRef lib.handle 1 } with hwIn
  set w1 : World := runInits c wIn lib with hw1
  set wA : World := { w1 with loader := { w0.loader with dlHandlePtrMap :=
      w0.loader.dlHandlePtrMap ++ [lib.handle] } } with hwA
  set ids : List Nat := wA.dynamicReg.map Prod.snd with hids
  set qw : World := { wA with archive := ArchivePluginInfo wA.archive ids lib.handle } with hqw
  set s : World × List String :=
    ids.foldl (storeStep (some lib.handle)) (qw, ([] : List String)) with hs
  set rw1 : World := { s.1 with loader := { s.1.loader with dlHandleToPluginMap := setA s.1.loader.dlHandleToPluginMap (some lib.handle) s.2 } } with hrw1
  set W2 : World := { rw1 with dynamicReg := ([] : Registry) } with hW2
  -- phase 1: the dlopen (fresh path)
  have hlib0 : lookupA w0.libs p = some lib := hlib
  have hosr0 : osRefGet w0 lib.handle = 0 := hosr
  have hmap0 : lib.handle ∉ w0.loader.dlHandlePtrMap := hmap
  have hCd1 : CreateDlHandle c w0 p = (wA, some lib.handle) :=
    CreateDlHandle_fresh hlib0 hosr0 hmap0
  -- the dynamic-registry invariant through the initializers
  have hRegIn : RegInv wIn lib.handle := by
    intro id hid
    have hz : wIn.dynamicReg = w.dynamicReg := rfl
    rw [hz, hdyn] at hid
    simp at hid
  have hReg1 : RegInv w1 lib.handle := by
    rw [hw1]
    exact runInits_RegInv hRegIn
  have hRegQ : RegInv qw lib.handle := hReg1
  have hne1 : w1.dynamicReg ≠ [] := by
    rw [hw1]
    exact runInits_reg_ok hreg
  have hidsne : ids ≠ [] := by
    intro hcon
    have hide : ids = w1.dynamicReg.map Prod.snd := hids
    rw [hide] at hcon
    exact hne1 (by simpa using hcon)
  have harchA : lookupA wA.archive.dlHandleToInfo lib.handle = none := by
    show lookupA w1.archive.dlHandleToInfo lib.handle = none
    rw [hw1, runInits_archive]
    exact harch
  -- phase 2: receiving (archive miss, no deprecated hook)
  have hRp : ReceivePlugins c wA lib = (qw, ids) :=
    ReceivePlugins_miss_none harchA hleg
  have hidmem : ∀ id ∈ ids, id ∈ qw.dynamicReg.map Prod.snd := fun id hid => hid
  have hres : ∀ id ∈ ids, ∃ info, lookupA qw.heap id = some info := by
    intro id hid
    obtain ⟨v, hv⟩ :=
      Option.isSome_iff_exists.mp (hRegQ id (hidmem id hid)).1
    exact ⟨v, hv⟩
  have hheldQ : ∀ id ∈ ids,
      id ∈ (lookupA qw.libHeld lib.handle).getD [] := by
    intro id hid
    exact (hRegQ id (hidmem id hid)).2
  -- phase 3: storing releases no foreign share
  have hPV : PVals qw.loader (some lib.handle) := fun e he => Or.inl (hpv e he)
  have hfOs : s.1.osRef = qw.osRef := by
    rw [hs]
    exact (foldl_storeStep_nodrop hPV).1
  have hfHeld : s.1.libHeld = qw.libHeld := by
    rw [hs]
    exact (foldl_storeStep_nodrop hPV).2.1
  have hfArch : s.1.archive = qw.archive := by
    rw [hs]
    exact (foldl_storeStep_nodrop hPV).2.2.1
  have hSt : StorePlugins qw ids (some lib.handle) = (rw1, s.2) := rfl
  have hfHeap : s.1.heap = qw.heap := by
    rw [hs]
    exact foldl_storeStep_heap _ _ _
  have hW2heap : W2.heap = qw.heap := hfHeap
  -- the post-load state, componentwise
  have hrLibs : w1.libs = w.libs := by
    rw [hw1]
    exact runInits_libs _ _ _
  have hG1 : lookupA W2.libs p = some lib := by
    have h1 : s.1.libs = w.libs := by
      rw [hs, foldl_storeStep_libs]
      exact hrLibs
    have h2 : W2.libs = w.libs := h1
    rw [h2]
    exact hlib
  have hrOs : w1.osRef = setA w.osRef lib.handle 1 := by
    rw [hw1]
    exact runInits_osRef _ _ _
  have hG2 : lookupA W2.osRef lib.handle = some 1 := by
    have h1 : W2.osRef = setA w.osRef lib.handle 1 := hfOs.trans hrOs
    rw [h1]
    exact lookupA_setA_self _ _ _
  have hG3 : lib.handle ∈ W2.loader.dlHandlePtrMap := by
    have h1 : s.1.loader.dlHandlePtrMap
        = w.loader.dlHandlePtrMap ++ [lib.handle] := by
      rw [hs, foldl_storeStep_dlmap]
    have h2 : W2.loader.dlHandlePtrMap
        = w.loader.dlHandlePtrMap ++ [lib.handle] := h1
    rw [h2]
    exact List.mem_append_right _ (List.mem_singleton.mpr rfl)
  obtain ⟨id0, hid0⟩ := List.exists_mem_of_ne_nil _ hidsne
  obtain ⟨info0, hinfo0⟩ := hres id0 hid0
  have hpt0 : lookupA s.1.loader.pluginToDlHandlePtrs info0.name
      = some (some lib.handle) := by
    rw [hs]
    exact foldl_storeStep_ptdh ⟨id0, hid0, info0, hinfo0, rfl⟩
  have hG4 : aliveShare W2.loader lib.handle = true :=
    @aliveShare_of_lookup W2.loader info0.name lib.handle hpt0
  have hG5 : lookupA W2.archive.dlHandleToInfo lib.handle = some ids := by
    have h2 : W2.archive = ArchivePluginInfo wA.archive ids lib.handle := hfArch
    rw [h2]
    exact ArchivePluginInfo_lookup_fresh hidsne harchA
  have hG6 : ∀ id ∈ ids, aliveInfo W2 id = true := by
    intro id hid
    obtain ⟨held, hlh, hmem2⟩ := mem_lookupA_getD (hheldQ id hid)
    have hlh2 : lookupA W2.libHeld lib.handle = some held := by
      have h2 : W2.libHeld = qw.libHeld := hfHeld
      rw [h2]
      exact hlh
    exact aliveInfo_of_libHeld hlh2 hmem2
  have hG7 : ∀ id ∈ ids, ∃ info, lookupA W2.heap id = some info ∧
      (lookupA W2.loader.plugins info.name).isSome ∧
      lookupA W2.loader.pluginToDlHandlePtrs info.name
        = some (some lib.handle) ∧
      ∀ a ∈ info.aliases,
        ∃ sx, lookupA W2.loader.aliases a = some sx ∧ info.name ∈ sx := by
    intro id hid
    obtain ⟨info, hinfoQ⟩ := hres id hid
    refine ⟨info, ?_, ?_, ?_, ?_⟩
    · rw [hW2heap]
      exact hinfoQ
    · show (lookupA s.1.loader.plugins info.name).isSome
      rw [hs]
      exact foldl_storeStep_plugins_mem ⟨id, hid, info, hinfoQ, rfl⟩
    · show lookupA s.1.loader.pluginToDlHandlePtrs info.name
        = some (some lib.handle)
      rw [hs]
      exact foldl_storeStep_ptdh ⟨id, hid, info, hinfoQ, rfl⟩
    · intro a ha
      show ∃ sx, lookupA s.1.loader.aliases a = some sx ∧ info.name ∈ sx
      rw [hs]
      exact foldl_storeStep_aliasHas hid hinfoQ ha
  have hmemN : info0.name ∈ s.2 := by
    rw [hs]
    exact foldl_storeStep_name_mem hid0 hinfo0
  have hG8 : s.2 ≠ [] := List.ne_nil_of_mem hmemN
  have hG9 : W2.dynamicReg = [] := rfl
  have hG10 : lookupA W2.loader.dlHandleToPluginMap (some lib.handle)
      = some s.2 := by
    show lookupA (setA s.1.loader.dlHandleToPluginMap (some lib.handle) s.2)
      (some lib.handle) = some s.2
    exact lookupA_setA_self _ _ _
  have hG11 : s.2 = (ids.foldl (storeStep (some lib.handle))
      (W2, ([] : List String))).2 := by
    rw [hs]
    exact (@foldl_storeStep_snd_eq ids (some lib.handle) (some lib.handle)
      (W2, ([] : List String)) (qw, ([] : List String)) hW2heap rfl).symm
  -- the first load, assembled
  have hCd1x : CreateDlHandle c { w with registrationOkay := true } p
      = (wA, some lib.handle) := hCd1
  have hL1 : LoadLib c w p = (W2, s.2) := by
    rw [LoadLib_eq_some hlib]
    simp only [hCd1x, hRp, hSt, ← hW2]
    rw [dropShare_alive none hG4, if_neg hG8]
  -- the second load
  set u0 : World := { W2 with registrationOkay := true } with hu0
  have hlibU : lookupA u0.libs p = some lib := hG1
  have hosrU : lookupA u0.osRef lib.handle = some 1 := hG2
  have hmemU : lib.handle ∈ u0.loader.dlHandlePtrMap := hG3
  have haliveU : aliveShare u0.loader lib.handle = true := hG4
  have hCdU : CreateDlHandle c u0 p = (u0, some lib.handle) :=
    CreateDlHandle_reuse hlibU hosrU hmemU haliveU
  have hhitU : lookupA u0.archive.dlHandleToInfo lib.handle = some ids := hG5
  have hallU : ∀ id ∈ ids, aliveInfo u0 id = true := hG6
  have hRpU : ReceivePlugins c u0 lib = (u0, ids) :=
    ReceivePlugins_hit hhitU hallU
  have hsatU : ∀ id ∈ ids, ∃ info, lookupA u0.heap id = some info ∧
      (lookupA u0.loader.plugins info.name).isSome ∧
      lookupA u0.loader.pluginToDlHandlePtrs info.name
        = some (some lib.handle) ∧
      ∀ a ∈ info.aliases,
        ∃ sx, lookupA u0.loader.aliases a = some sx ∧ info.name ∈ sx := hG7
  have huheap : u0.heap = W2.heap := rfl
  have hfold2 : (ids.foldl (storeStep (some lib.handle))
      (u0, ([] : List String))).2 = s.2 :=
    (@foldl_storeStep_snd_eq ids (some lib.handle) (some lib.handle)
      (u0, ([] : List String)) (W2, ([] : List String)) huheap rfl).trans
      hG11.symm
  have hdhU : lookupA u0.loader.dlHandleToPluginMap (some lib.handle)
      = some ((ids.foldl (storeStep (some lib.handle))
          (u0, ([] : List String))).2) := by
    rw [hfold2]
    exact hG10
  have hStU : StorePlugins u0 ids (some lib.handle)
      = (u0, (ids.foldl (storeStep (some lib.handle))
          (u0, ([] : List String))).2) :=
    StorePlugins_saturated hsatU hdhU
  have hdynU : u0.dynamicReg = [] := hG9
  have hCdUx : CreateDlHandle c { W2 with registrationOkay := true } p
      = (u0, some lib.handle) := hCdU
  have hL2 : LoadLib c W2 p = (u0, s.2) := by
    rw [LoadLib_eq_some hG1]
    simp only [hCdUx, hRpU, hStU, hfold2, World_dyn_eta hdynU]
    rw [dropShare_alive none haliveU, if_neg hG8]
  have hL2x : LoadLib c ((W2, s.2) : World × List String).1 p
      = (u0, s.2) := hL2
  rw [hL1, hL2x]
  exact ⟨rfl, rfl, rfl⟩

theorem C2_load_twice_witness :
    (LoadLib exCtx (LoadLib exCtx exCW0 "c").1 "c").2
      = (LoadLib exCtx exCW0 "c").2 ∧
    (LoadLib exCtx (LoadLib exCtx exCW0 "c").1 "c").1.loader
      = (LoadLib exCtx exCW0 "c").1.loader ∧
    (LoadLib exCtx (LoadLib exCtx exCW0 "c").1 "c").1.osRef
      = (LoadLib exCtx exCW0 "c").1.osRef :=
  C2_load_twice exCtx exCW0 "c" exLibC (by decide) (by decide) (by decide)
    (by decide) (by decide) (by decide) (by decide)
    ⟨{ info := exInfo "X" ["ax"], size := 8, align := 4 },
     by decide, by decide, by decide⟩

end IgnPlugin
